import Mathlib

/-!
# Verification of `query-builder.go`

A shallow embedding of the Go package `querybuilder` and theorems about its
rendering operation `BuildQuery`.

Modelling decisions.

* A `*QueryBuilder` is a pointer.  The Go heap is modelled by `Heap`, a list of
  `QueryBuilder` objects addressed by their index; a pointer is `Option Nat`
  (`none` is Go's `nil`).  This keeps what the source really does with
  pointers: `AddCTE` stores the pointer it is given (so sharing, later mutation
  of an attached builder, `nil` and cycles are all expressible).
* Go strings are `String` (the source only concatenates them, so the byte-level
  encoding plays no part), slices are `List`, `strings.Builder` is string
  concatenation, `fmt.Sprintf` with `%s`/`%d` verbs is concatenation of the
  arguments with the decimal rendering of integers, `strings.Join` is `strings.Join`.
* `placeholderIndex` is a Go `int`; it is bounded by the number of conditions of
  one builder plus one, so it never leaves the 63-bit range and is a `Nat` here.
* `interface{}` values are opaque to the builder; `Value` is a small closed sum
  that is only ever moved around.
* `BuildQuery` recurses through pointers, so the model carries a recursion
  budget (`fuel`); `Returns` says that some budget is enough.  A call returns at
  most one result (`Returns_unique`), and it returns exactly when its receiver is
  not `nil` and every nested call returns (`Returns_closed`, `Returns_inv`); the
  theorems about assemblers with CTE entries are stated under that condition.
* `WellNested` is that condition unfolded to any depth (no `nil` reference, finite
  nesting); `FinitelyNested` allows `nil` references; `Reaches` follows CTE entries.
* `BuildQueryS` runs the statements of `BuildQuery` with the heap threaded through,
  to state that rendering leaves every object as it was.
* `InterfaceCall` and `runProgram` model sequences of calls of the public interface
  on one heap; `runCalls` models a fluent chain on one receiver.
-/

namespace querybuilder

/-! ## Data model (source lines 8-32) -/

/-- A Go `interface{}` value held by a condition; never inspected. -/
inductive Value where
  | null : Value
  | int (i : Int) : Value
  | str (s : String) : Value
  | bool (b : Bool) : Value
  deriving DecidableEq, Repr

/-- Go `type Condition struct`. -/
structure Condition where
  Field : String
  Operator : String
  Value : Value
  deriving DecidableEq, Repr

/-- Go `type Relation struct`. -/
structure Relation where
  Table : String
  ForeignKey : String
  PrimaryKey : String
  deriving DecidableEq, Repr

/-- A `*QueryBuilder`: `none` is `nil`, `some a` is the address `a`. -/
abbrev Ptr := Option Nat

/-- Go `type CTE struct`. -/
structure CTE where
  Name : String
  QueryParts : Ptr
  deriving DecidableEq, Repr

/-- Go `type QueryBuilder struct`. -/
structure QueryBuilder where
  TableName : String
  Fields : List String
  Conditions : List Condition
  OrConditions : List Condition
  Relations : List Relation
  CTEs : List CTE
  deriving DecidableEq, Repr

/-- The heap of allocated `QueryBuilder` objects; an address is an index. -/
abbrev Heap := List QueryBuilder

/-- How a call can fail to return: a `nil` pointer dereference (a Go panic), or
the recursion budget of the model ran out. -/
inductive Fault where
  | nilDereference : Fault
  | outOfFuel : Fault
  deriving DecidableEq, Repr

/-- The result of a call that may fail. -/
abbrev Result (α : Type) := Except Fault α

/-- Dereference a pointer: the object it addresses, if any. -/
def deref (h : Heap) (p : Ptr) : Option QueryBuilder :=
  match p with
  | none => none
  | some a => h[a]?

/-! ## Library functions used by the source -/

/-- Go `strings.Join(elems, sep)`. -/
def strings.Join : List String → String → String
  | [], _ => ""
  | [a], _ => a
  | a :: b :: rest, sep => a ++ sep ++ strings.Join (b :: rest) sep

/-- The text `fmt.Sprintf("%d", n)` writes for a non-negative `int`. -/
def fmtInt (n : Nat) : String := toString n

/-! ## Constructor and mutators (source lines 34-68) -/

/-- Go `NewQueryBuilder`: allocates a fresh object and returns its address. -/
def NewQueryBuilder (h : Heap) (tableName : String) : Heap × Ptr :=
  (h ++ [{ TableName := tableName, Fields := [], Conditions := [],
           OrConditions := [], Relations := [], CTEs := [] }],
   some h.length)

/-- Apply a field update to the object behind the receiver and return the receiver:
the shared shape of the five mutators.  A `nil` receiver faults. -/
def mutate (h : Heap) (qb : Ptr) (f : QueryBuilder → QueryBuilder) : Result (Heap × Ptr) :=
  match qb with
  | none => .error .nilDereference
  | some a =>
    match h[a]? with
    | none => .error .nilDereference
    | some o => .ok (h.set a (f o), qb)

/-- Go `(*QueryBuilder).Select`. -/
def Select (h : Heap) (qb : Ptr) (fields : List String) : Result (Heap × Ptr) :=
  mutate h qb (fun o => { o with Fields := o.Fields ++ fields })

/-- Go `(*QueryBuilder).Where`. -/
def Where (h : Heap) (qb : Ptr) (field operator : String) (value : Value) :
    Result (Heap × Ptr) :=
  mutate h qb (fun o => { o with
    Conditions := o.Conditions ++ [{ Field := field, Operator := operator, Value := value }] })

/-- Go `(*QueryBuilder).OrWhere`. -/
def OrWhere (h : Heap) (qb : Ptr) (field operator : String) (value : Value) :
    Result (Heap × Ptr) :=
  mutate h qb (fun o => { o with
    OrConditions := o.OrConditions ++ [{ Field := field, Operator := operator, Value := value }] })

/-- Go `(*QueryBuilder).Join`. -/
def Join (h : Heap) (qb : Ptr) (table foreignKey primaryKey : String) :
    Result (Heap × Ptr) :=
  mutate h qb (fun o => { o with
    Relations := o.Relations ++
      [{ Table := table, ForeignKey := foreignKey, PrimaryKey := primaryKey }] })

/-- Go `(*QueryBuilder).AddCTE`: stores the pointer it is given. -/
def AddCTE (h : Heap) (qb : Ptr) (name : String) (queryBuilder : Ptr) : Result (Heap × Ptr) :=
  mutate h qb (fun o => { o with
    CTEs := o.CTEs ++ [{ Name := name, QueryParts := queryBuilder }] })

/-! ## Rendering (source lines 70-114) -/

/-- The loop of lines 77-81: render each CTE entry through `call`, collecting the
parts and splicing the nested arguments. -/
def cteLoop (call : Ptr → Result (String × List Value)) :
    List CTE → List String × List Value → Result (List String × List Value)
  | [], st => .ok st
  | cte :: rest, (cteParts, args) =>
    match call cte.QueryParts with
    | .error e => .error e
    | .ok (cteQuery, cteArgs) =>
      cteLoop call rest (cteParts ++ [cte.Name ++ " AS (" ++ cteQuery ++ ")"], args ++ cteArgs)

/-- The loop of lines 88-90: write one ` JOIN` clause per relation. -/
def relationLoop (tableName : String) : List Relation → String → String
  | [], query => query
  | relation :: rest, query =>
    relationLoop tableName rest
      (query ++ (" JOIN " ++ relation.Table ++ " ON " ++ tableName ++ "." ++
        relation.PrimaryKey ++ " = " ++ relation.Table ++ "." ++ relation.ForeignKey))

/-- The loops of lines 96-100 and 103-107: render each condition with the current
placeholder index, append its value, advance the index. -/
def conditionLoop :
    List Condition → List String × List Value × Nat → List String × List Value × Nat
  | [], st => st
  | condition :: rest, (conditions, args, placeholderIndex) =>
    conditionLoop rest
      (conditions ++
        [condition.Field ++ " " ++ condition.Operator ++ " $" ++ fmtInt placeholderIndex],
       args ++ [condition.Value],
       placeholderIndex + 1)

/-- The body of `BuildQuery` on the object `qb`, with nested calls made through
`call`. -/
def BuildQueryBody (call : Ptr → Result (String × List Value)) (qb : QueryBuilder) :
    Result (String × List Value) :=
  let query := ""
  let args : List Value := []
  let placeholderIndex := 1
  match (if qb.CTEs.length > 0 then
      match cteLoop call qb.CTEs ([], args) with
      | .error e => .error e
      | .ok (cteParts, args) => .ok (query ++ ("WITH " ++ strings.Join cteParts ", " ++ " "), args)
    else .ok (query, args) : Result (String × List Value)) with
  | .error e => .error e
  | .ok (query, args) =>
    let query := query ++ ("SELECT " ++ strings.Join qb.Fields ", " ++ " FROM " ++ qb.TableName)
    let query := if qb.Relations.length > 0 then relationLoop qb.TableName qb.Relations query
                 else query
    if qb.Conditions.length > 0 ∨ qb.OrConditions.length > 0 then
      let query := query ++ " WHERE "
      let (conditions, args, placeholderIndex) :=
        conditionLoop qb.Conditions ([], args, placeholderIndex)
      let (conditions, args) :=
        if qb.OrConditions.length > 0 then
          let (orConditions, args, _) := conditionLoop qb.OrConditions ([], args, placeholderIndex)
          (conditions ++ ["(" ++ strings.Join orConditions " OR " ++ ")"], args)
        else (conditions, args)
      .ok (query ++ strings.Join conditions " AND ", args)
    else
      .ok (query, args)

/-- Go `(*QueryBuilder).BuildQuery`, with a recursion budget.  The receiver is
dereferenced at line 75; a `nil` receiver faults there. -/
def BuildQuery (h : Heap) : Nat → Ptr → Result (String × List Value)
  | 0, _ => .error .outOfFuel
  | fuel + 1, qb =>
    match deref h qb with
    | none => .error .nilDereference
    | some o => BuildQueryBody (BuildQuery h fuel) o

/-- The call `qb.BuildQuery()` returns `res` on heap `h`. -/
def Returns (h : Heap) (qb : Ptr) (res : String × List Value) : Prop :=
  ∃ fuel, BuildQuery h fuel qb = .ok res

/-! ## Rendering as a state transformer

`BuildQuery` above reads the heap and returns a result.  To state that rendering
changes nothing, `BuildQueryS` runs the same statements while threading the heap
through the call and through every nested call: each nested call hands back the heap
it leaves, the next statement runs on that heap, and the fields read after the CTE
loop (lines 85-110) are read from the heap as it is then.  The source assigns only
to the locals `query`, `args`, `placeholderIndex`, `cteParts`, `conditions` and
`orConditions`, so no statement updates the heap. -/

/-- Lines 85-113 on the object `qb`: the projection, the joins and the filter clause,
written after `query`, with the values appended to `args`. -/
def BuildQueryTail (qb : QueryBuilder) (query : String) (args : List Value) :
    String × List Value :=
  let placeholderIndex := 1
  let query := query ++ ("SELECT " ++ strings.Join qb.Fields ", " ++ " FROM " ++ qb.TableName)
  let query := if qb.Relations.length > 0 then relationLoop qb.TableName qb.Relations query
               else query
  if qb.Conditions.length > 0 ∨ qb.OrConditions.length > 0 then
    let query := query ++ " WHERE "
    let (conditions, args, placeholderIndex) :=
      conditionLoop qb.Conditions ([], args, placeholderIndex)
    let (conditions, args) :=
      if qb.OrConditions.length > 0 then
        let (orConditions, args, _) := conditionLoop qb.OrConditions ([], args, placeholderIndex)
        (conditions ++ ["(" ++ strings.Join orConditions " OR " ++ ")"], args)
      else (conditions, args)
    (query ++ strings.Join conditions " AND ", args)
  else
    (query, args)

/-- The loop of lines 77-81 with the heap threaded through the nested calls. -/
def cteLoopS (call : Heap → Ptr → Result (Heap × (String × List Value))) :
    List CTE → Heap × List String × List Value → Result (Heap × List String × List Value)
  | [], st => .ok st
  | cte :: rest, (h, cteParts, args) =>
    match call h cte.QueryParts with
    | .error e => .error e
    | .ok (h', cteQuery, cteArgs) =>
      cteLoopS call rest
        (h', cteParts ++ [cte.Name ++ " AS (" ++ cteQuery ++ ")"], args ++ cteArgs)

/-- Go `(*QueryBuilder).BuildQuery` as a state transformer, with a recursion budget:
the result together with the heap the call leaves. -/
def BuildQueryS : Nat → Heap → Ptr → Result (Heap × (String × List Value))
  | 0, _, _ => .error .outOfFuel
  | fuel + 1, h, qb =>
    match deref h qb with
    | none => .error .nilDereference
    | some o =>
      match (if o.CTEs.length > 0 then
          match cteLoopS (BuildQueryS fuel) o.CTEs (h, [], []) with
          | .error e => .error e
          | .ok (h', cteParts, args) =>
            .ok (h', "" ++ ("WITH " ++ strings.Join cteParts ", " ++ " "), args)
        else .ok (h, "", []) : Result (Heap × String × List Value)) with
      | .error e => .error e
      | .ok (h', query, args) =>
        match deref h' qb with
        | none => .error .nilDereference
        | some o' => .ok (h', BuildQueryTail o' query args)

/-! ## Concrete assemblers -/

/-- An object with two AND-conditions and two OR-conditions, and no CTE entries. -/
def usersObj : QueryBuilder :=
  { TableName := "users", Fields := ["id"],
    Conditions := [⟨"age", ">", .int 18⟩, ⟨"city", "=", .str "Oslo"⟩],
    OrConditions := [⟨"status", "=", .str "active"⟩, ⟨"vip", "=", .bool true⟩],
    Relations := [], CTEs := [] }

/-- A heap holding `usersObj` at address 0. -/
def usersHeap : Heap := [usersObj]

/-- The CTE source of the `recent` example: one AND-condition. -/
def ordersObj : QueryBuilder :=
  { TableName := "orders", Fields := ["id"],
    Conditions := [⟨"created_at", ">", .int 20240101⟩],
    OrConditions := [], Relations := [], CTEs := [] }

/-- A parent with one CTE entry (address 0), one relation, one AND-condition and
one OR-condition. -/
def recentObj : QueryBuilder :=
  { TableName := "recent", Fields := ["*"],
    Conditions := [⟨"total", ">", .int 100⟩],
    OrConditions := [⟨"status", "=", .str "paid"⟩],
    Relations := [⟨"users", "user_id", "id"⟩],
    CTEs := [⟨"recent", some 0⟩] }

/-- A heap holding `ordersObj` at address 0 and `recentObj` at address 1. -/
def recentHeap : Heap := [ordersObj, recentObj]

/-- The program
`NewQueryBuilder("users").Select("id","name").Where("age",">",18).OrWhere("status","=","active").BuildQuery()`. -/
def scenarioWhereOrWhere : Result (String × List Value) := do
  let (h, qb) := NewQueryBuilder [] "users"
  let (h, qb) ← Select h qb ["id", "name"]
  let (h, qb) ← Where h qb "age" ">" (.int 18)
  let (h, qb) ← OrWhere h qb "status" "=" (.str "active")
  BuildQuery h 1 qb

/-- The program
`NewQueryBuilder("users").Join("orders","user_id","id").Select("*").BuildQuery()`. -/
def scenarioJoin : Result (String × List Value) := do
  let (h, qb) := NewQueryBuilder [] "users"
  let (h, qb) ← Join h qb "orders" "user_id" "id"
  let (h, qb) ← Select h qb ["*"]
  BuildQuery h 1 qb

/-- The program of the CTE scenario: `recent` is
`NewQueryBuilder("orders").Select("id").Where("created_at",">",cutoff)`, and the
rendered assembler is `NewQueryBuilder("recent").Select("*").AddCTE("recent", recent)`. -/
def scenarioCTE (cutoff : Value) : Result (String × List Value) := do
  let (h, recent) := NewQueryBuilder [] "orders"
  let (h, recent) ← Select h recent ["id"]
  let (h, recent) ← Where h recent "created_at" ">" cutoff
  let (h, qb) := NewQueryBuilder h "recent"
  let (h, qb) ← Select h qb ["*"]
  let (h, qb) ← AddCTE h qb "recent" recent
  BuildQuery h 2 qb

/-- The program `qb := NewQueryBuilder("t"); qb.Select("b","a"); qb.Select("b");
qb.BuildQuery()`. -/
def scenarioSelectTwice : Result (String × List Value) := do
  let (h, qb) := NewQueryBuilder [] "t"
  let (h, qb) ← Select h qb ["b", "a"]
  let (h, qb) ← Select h qb ["b"]
  BuildQuery h 1 qb

/-- The program: `recent` as in `scenarioCTE` with cutoff `20240101`, attached to
`NewQueryBuilder("recent").Select("*")`, which then gets the condition
`Where("status","=","paid")` of its own. -/
def scenarioCollision : Result (String × List Value) := do
  let (h, recent) := NewQueryBuilder [] "orders"
  let (h, recent) ← Select h recent ["id"]
  let (h, recent) ← Where h recent "created_at" ">" (.int 20240101)
  let (h, qb) := NewQueryBuilder h "recent"
  let (h, qb) ← Select h qb ["*"]
  let (h, qb) ← AddCTE h qb "recent" recent
  let (h, qb) ← Where h qb "status" "=" (.str "paid")
  BuildQuery h 2 qb

/-- The program: a CTE `big` with two conditions (so it contributes two arguments),
attached to a parent that has one AND-condition of its own. -/
def scenarioContinue : Result (String × List Value) := do
  let (h, big) := NewQueryBuilder [] "orders"
  let (h, big) ← Select h big ["user_id"]
  let (h, big) ← Where h big "total" ">" (.int 100)
  let (h, big) ← Where h big "year" "=" (.int 2024)
  let (h, qb) := NewQueryBuilder h "users"
  let (h, qb) ← Select h qb ["name"]
  let (h, qb) ← AddCTE h qb "big" big
  let (h, qb) ← Where h qb "active" "=" (.bool true)
  BuildQuery h 2 qb

/-- One call of a mutator of the public interface, with its arguments. -/
inductive MutatorCall where
  | select (fields : List String) : MutatorCall
  | whereAnd (field operator : String) (value : Value) : MutatorCall
  | whereOr (field operator : String) (value : Value) : MutatorCall
  | join (table foreignKey primaryKey : String) : MutatorCall
  | addCTE (name : String) (queryBuilder : Ptr) : MutatorCall

/-- Run one mutator call on the receiver `qb`. -/
def MutatorCall.run (h : Heap) (qb : Ptr) : MutatorCall → Result (Heap × Ptr)
  | .select fields => Select h qb fields
  | .whereAnd field operator value => Where h qb field operator value
  | .whereOr field operator value => OrWhere h qb field operator value
  | .join table foreignKey primaryKey => Join h qb table foreignKey primaryKey
  | .addCTE name queryBuilder => AddCTE h qb name queryBuilder

/-- The five sequences an assembler holds. -/
inductive Sequence where
  | fields : Sequence
  | conditions : Sequence
  | orConditions : Sequence
  | relations : Sequence
  | ctes : Sequence
  deriving DecidableEq, Repr

/-- The sequence a mutator call appends to (lines 46, 51, 56, 61, 66). -/
def MutatorCall.target : MutatorCall → Sequence
  | .select _ => .fields
  | .whereAnd _ _ _ => .conditions
  | .whereOr _ _ _ => .orConditions
  | .join _ _ _ => .relations
  | .addCTE _ _ => .ctes

/-- What a call appends to `Fields`. -/
def MutatorCall.toFields : MutatorCall → List String
  | .select fields => fields
  | _ => []

/-- What a call appends to `Conditions`. -/
def MutatorCall.toConditions : MutatorCall → List Condition
  | .whereAnd field operator value => [⟨field, operator, value⟩]
  | _ => []

/-- What a call appends to `OrConditions`. -/
def MutatorCall.toOrConditions : MutatorCall → List Condition
  | .whereOr field operator value => [⟨field, operator, value⟩]
  | _ => []

/-- What a call appends to `Relations`. -/
def MutatorCall.toRelations : MutatorCall → List Relation
  | .join table foreignKey primaryKey => [⟨table, foreignKey, primaryKey⟩]
  | _ => []

/-- What a call appends to `CTEs`. -/
def MutatorCall.toCTEs : MutatorCall → List CTE
  | .addCTE name queryBuilder => [⟨name, queryBuilder⟩]
  | _ => []

/-- A chain of mutator calls `qb.m1(...).m2(...)...`: each call runs on the
receiver the previous one returned. -/
def runCalls (h : Heap) (qb : Ptr) : List MutatorCall → Result (Heap × Ptr)
  | [] => .ok (h, qb)
  | c :: cs =>
    match c.run h qb with
    | .error e => .error e
    | .ok (h', qb') => runCalls h' qb' cs

/-! ## Nesting through CTE entries -/

/-- The receiver is not `nil`, every CTE reference under it, at any depth, is not
`nil`, and the nesting of CTE entries under it is finite. -/
inductive WellNested (h : Heap) : Ptr → Prop where
  | node (qb : Ptr) (o : QueryBuilder) :
      deref h qb = some o →
      (∀ cte, cte ∈ o.CTEs → WellNested h cte.QueryParts) →
      WellNested h qb

/-- Stated from the claim: the number of AND- and OR-conditions held by the assembler
behind `qb` and by every assembler nested under it through CTE entries, counted
once per CTE entry that leads to it, following CTE entries `depth - 1` levels
down. -/
def totalConditions (h : Heap) : Nat → Ptr → Nat
  | 0, _ => 0
  | depth + 1, qb =>
    match deref h qb with
    | none => 0
    | some o =>
      o.Conditions.length + o.OrConditions.length +
        (o.CTEs.map (fun cte => totalConditions h depth cte.QueryParts)).sum

/-- The program `NewQueryBuilder("t").AddCTE("x", nil).BuildQuery()`. -/
def scenarioNilCTE (fuel : Nat) : Result (String × List Value) := do
  let (h, qb) := NewQueryBuilder [] "t"
  let (h, qb) ← AddCTE h qb "x" none
  BuildQuery h fuel qb

/-- A heap with three levels of nesting: address 2 has two CTE entries, both leading
to address 1, which has one CTE entry leading to address 0. -/
def nestedHeap : Heap :=
  [ordersObj,
   { TableName := "recent", Fields := ["id"], Conditions := [],
     OrConditions := [⟨"status", "=", .str "paid"⟩], Relations := [],
     CTEs := [⟨"o", some 0⟩] },
   { TableName := "a", Fields := ["*"], Conditions := [⟨"x", "=", .int 1⟩],
     OrConditions := [], Relations := [],
     CTEs := [⟨"a", some 1⟩, ⟨"b", some 1⟩] }]

/-- The assembler behind a pointer leads, through zero or more CTE entries, to the
address `a`. -/
inductive Reaches (h : Heap) : Ptr → Nat → Prop where
  | here (a : Nat) : Reaches h (some a) a
  | step (b : Nat) (o : QueryBuilder) (cte : CTE) (a : Nat) :
      h[b]? = some o → cte ∈ o.CTEs → Reaches h cte.QueryParts a → Reaches h (some b) a

/-- The nesting of CTE entries under a pointer is finite; a reference that addresses
no object (`nil`) ends it. -/
inductive FinitelyNested (h : Heap) : Ptr → Prop where
  | leaf (qb : Ptr) : deref h qb = none → FinitelyNested h qb
  | node (qb : Ptr) (o : QueryBuilder) :
      deref h qb = some o →
      (∀ cte, cte ∈ o.CTEs → FinitelyNested h cte.QueryParts) →
      FinitelyNested h qb

/-- One call of the public interface: the constructor, or a mutator on a receiver. -/
inductive InterfaceCall where
  | newQueryBuilder (tableName : String) : InterfaceCall
  | mutator (qb : Ptr) (c : MutatorCall) : InterfaceCall

/-- Run one interface call; the heap after it. -/
def InterfaceCall.run (h : Heap) : InterfaceCall → Result Heap
  | .newQueryBuilder tableName => .ok (NewQueryBuilder h tableName).1
  | .mutator qb c =>
    match c.run h qb with
    | .error e => .error e
    | .ok (h', _) => .ok h'

/-- Run a sequence of interface calls, in order. -/
def runProgram (h : Heap) : List InterfaceCall → Result Heap
  | [] => .ok h
  | c :: cs =>
    match c.run h with
    | .error e => .error e
    | .ok h' => runProgram h' cs

/-- The call is not an `AddCTE` that attaches, to its receiver, an assembler that
leads to that receiver. -/
def InterfaceCall.AttachesNoAncestor (h : Heap) : InterfaceCall → Prop
  | .mutator (some a) (.addCTE _ queryBuilder) => ¬ Reaches h queryBuilder a
  | _ => True

/-- No call of the sequence, run from `h`, attaches to its receiver an assembler that
leads to that receiver. -/
def AttachNoAncestor (h : Heap) : List InterfaceCall → Prop
  | [] => True
  | c :: cs =>
    c.AttachesNoAncestor h ∧
      match c.run h with
      | .error _ => True
      | .ok h' => AttachNoAncestor h' cs

/-- The heap after `qb := NewQueryBuilder("t"); qb.AddCTE("self", qb)`. -/
def selfHeap : Heap :=
  [{ TableName := "t", Fields := [], Conditions := [], OrConditions := [], Relations := [],
     CTEs := [⟨"self", some 0⟩] }]

/-- The heap the calls of `recentProgram` build. -/
def recentProgramHeap : Heap :=
  [ordersObj,
   { TableName := "recent", Fields := ["*"], Conditions := [], OrConditions := [],
     Relations := [], CTEs := [⟨"recent", some 0⟩] }]

/-- The calls of the CTE scenario, in order: build `orders` (address 0) with one
condition, build `recent` (address 1), attach the former to the latter. -/
def recentProgram : List InterfaceCall :=
  [.newQueryBuilder "orders",
   .mutator (some 0) (.select ["id"]),
   .mutator (some 0) (.whereAnd "created_at" ">" (.int 20240101)),
   .newQueryBuilder "recent",
   .mutator (some 1) (.select ["*"]),
   .mutator (some 1) (.addCTE "recent" (some 0))]

/-! ## Auxiliary lemmas: the loops in closed form -/

/-- The ` JOIN` clause written for one relation (line 89). -/
theorem relationLoop_eq (tableName : String) (rs : List Relation) (query : String) :
    relationLoop tableName rs query =
      query ++ String.join (rs.map (fun r =>
        " JOIN " ++ r.Table ++ " ON " ++ tableName ++ "." ++ r.PrimaryKey ++ " = " ++
          r.Table ++ "." ++ r.ForeignKey)) := by
  have key : ∀ (l : List String) (acc : String),
      List.foldl (fun r s => r ++ s) acc l = acc ++ List.foldl (fun r s => r ++ s) "" l := by
    intro l
    induction l with
    | nil => intro acc; simp
    | cons x xs ih =>
      intro acc
      simp only [List.foldl_cons]
      rw [ih (acc ++ x), ih ("" ++ x)]
      simp [String.append_assoc]
  induction rs generalizing query with
  | nil => simp [relationLoop, String.join]
  | cons r rest ih =>
    simp only [relationLoop, ih, List.map_cons, String.join, List.foldl_cons]
    rw [key _ ("" ++ _)]
    simp [String.append_assoc]

/-- The condition loop in closed form: it appends, for the condition at offset `i`,
its rendering with placeholder `k + i` and its value, and advances the index by
the number of conditions. -/
theorem conditionLoop_eq (cs : List Condition) (conds : List String) (args : List Value)
    (k : Nat) :
    conditionLoop cs (conds, args, k) =
      (conds ++ cs.mapIdx (fun i c => c.Field ++ " " ++ c.Operator ++ " $" ++ fmtInt (k + i)),
       args ++ cs.map (fun c => c.Value),
       k + cs.length) := by
  induction cs generalizing conds args k with
  | nil => simp [conditionLoop]
  | cons c rest ih =>
    simp only [conditionLoop, ih, List.mapIdx_cons, List.map_cons, List.length_cons]
    refine Prod.ext ?_ (Prod.ext ?_ ?_)
    · simp only [List.append_assoc, List.singleton_append, Nat.add_zero]
      have hf : (fun i (c : Condition) =>
            c.Field ++ " " ++ c.Operator ++ " $" ++ fmtInt (k + 1 + i)) =
          (fun i (c : Condition) =>
            c.Field ++ " " ++ c.Operator ++ " $" ++ fmtInt (k + (i + 1))) := by
        funext i c
        rw [Nat.add_assoc, Nat.add_comm 1 i]
      rw [hf]
    · simp
    · simp only; omega

/-- The CTE loop in closed form, when every nested call returns. -/
theorem cteLoop_ok (call : Ptr → Result (String × List Value)) (ctes : List CTE)
    (rs : List (String × List Value))
    (hrs : List.Forall₂ (fun cte r => call cte.QueryParts = .ok r) ctes rs)
    (parts : List String) (args : List Value) :
    cteLoop call ctes (parts, args) =
      .ok (parts ++ List.zipWith (fun cte r => cte.Name ++ " AS (" ++ r.1 ++ ")") ctes rs,
           args ++ (rs.map (fun r => r.2)).flatten) := by
  induction hrs generalizing parts args with
  | nil => simp [cteLoop]
  | cons hd _ ih =>
    simp only [cteLoop, hd, ih, List.zipWith_cons_cons, List.map_cons, List.flatten_cons]
    simp

/-- The body of `BuildQuery` in closed form, when every nested call returns. -/
theorem BuildQueryBody_ok (call : Ptr → Result (String × List Value)) (o : QueryBuilder)
    (rs : List (String × List Value))
    (hrs : List.Forall₂ (fun cte r => call cte.QueryParts = .ok r) o.CTEs rs) :
    BuildQueryBody call o =
      .ok ((if o.CTEs = [] then "" else
              "WITH " ++ strings.Join
                (List.zipWith (fun cte r => cte.Name ++ " AS (" ++ r.1 ++ ")") o.CTEs rs) ", " ++
                " ") ++
            ("SELECT " ++ strings.Join o.Fields ", " ++ " FROM " ++ o.TableName ++
              String.join (o.Relations.map (fun r =>
                " JOIN " ++ r.Table ++ " ON " ++ o.TableName ++ "." ++ r.PrimaryKey ++ " = " ++
                  r.Table ++ "." ++ r.ForeignKey))) ++
            (if o.Conditions = [] ∧ o.OrConditions = [] then "" else
              " WHERE " ++ strings.Join
                (o.Conditions.mapIdx
                    (fun i c => c.Field ++ " " ++ c.Operator ++ " $" ++ fmtInt (1 + i)) ++
                  (if o.OrConditions = [] then [] else
                    ["(" ++ strings.Join
                      (o.OrConditions.mapIdx (fun j c =>
                        c.Field ++ " " ++ c.Operator ++ " $" ++
                          fmtInt (1 + o.Conditions.length + j))) " OR " ++ ")"]))
                " AND "),
           (rs.map (fun r => r.2)).flatten ++ o.Conditions.map (fun c => c.Value) ++
             o.OrConditions.map (fun c => c.Value)) := by
  have hlen : ∀ {α : Type} (l : List α), (l.length > 0) = (l ≠ []) := by
    intro α l; cases l <;> simp
  unfold BuildQueryBody
  simp only [cteLoop_ok call o.CTEs rs hrs, conditionLoop_eq, relationLoop_eq, hlen]
  by_cases hc : o.CTEs = [] <;> by_cases hr : o.Relations = [] <;>
    by_cases ha : o.Conditions = [] <;> by_cases ho : o.OrConditions = [] <;>
    simp [hc, hr, ha, ho, String.append_assoc, String.join]
  all_goals
    intro l x hx
    have hnil : rs = [] := by
      rw [hc] at hrs
      cases hrs
      rfl
    rw [hnil] at hx
    cases hx

/-! ## Auxiliary lemmas: the recursion budget -/

/-- The CTE loop only gains results when the nested calls gain results. -/
theorem cteLoop_mono (call call' : Ptr → Result (String × List Value))
    (hcc : ∀ p r, call p = .ok r → call' p = .ok r) (ctes : List CTE)
    (st res : List String × List Value) (hok : cteLoop call ctes st = .ok res) :
    cteLoop call' ctes st = .ok res := by
  induction ctes generalizing st with
  | nil => simpa [cteLoop] using hok
  | cons cte rest ih =>
    obtain ⟨parts, args⟩ := st
    simp only [cteLoop] at hok ⊢
    cases hcall : call cte.QueryParts with
    | error e => simp [hcall] at hok
    | ok r =>
      obtain ⟨q, a⟩ := r
      rw [hcall] at hok
      rw [hcc _ _ hcall]
      exact ih _ hok

/-- The body only gains results when the nested calls gain results. -/
theorem BuildQueryBody_mono (call call' : Ptr → Result (String × List Value))
    (hcc : ∀ p r, call p = .ok r → call' p = .ok r) (o : QueryBuilder)
    (res : String × List Value) (hok : BuildQueryBody call o = .ok res) :
    BuildQueryBody call' o = .ok res := by
  unfold BuildQueryBody at hok ⊢
  by_cases hc : o.CTEs.length > 0
  · simp only [hc, if_true] at hok ⊢
    cases hloop : cteLoop call o.CTEs ([], []) with
    | error e => simp [hloop] at hok
    | ok st =>
      rw [hloop] at hok
      rw [cteLoop_mono call call' hcc _ _ _ hloop]
      exact hok
  · simp only [hc, if_false] at hok ⊢
    exact hok

/-- A larger budget keeps every result. -/
theorem BuildQuery_succ (h : Heap) (fuel : Nat) :
    ∀ (qb : Ptr) (res : String × List Value),
      BuildQuery h fuel qb = .ok res → BuildQuery h (fuel + 1) qb = .ok res := by
  induction fuel with
  | zero => intro qb res hok; simp [BuildQuery] at hok
  | succ n ih =>
    intro qb res hok
    rw [BuildQuery] at hok ⊢
    cases hd : deref h qb with
    | none => simp [hd] at hok
    | some o =>
      simp only [hd] at hok ⊢
      exact BuildQueryBody_mono _ _ ih o res hok

/-- A larger budget keeps every result. -/
theorem BuildQuery_le (h : Heap) (n m : Nat) (hnm : n ≤ m) (qb : Ptr)
    (res : String × List Value) (hok : BuildQuery h n qb = .ok res) :
    BuildQuery h m qb = .ok res := by
  induction hnm with
  | refl => exact hok
  | step _ ih => exact BuildQuery_succ h _ qb res ih

/-- A call returns at most one result. -/
theorem Returns_unique (h : Heap) (qb : Ptr) (r r' : String × List Value)
    (hr : Returns h qb r) (hr' : Returns h qb r') : r = r' := by
  obtain ⟨n, hn⟩ := hr
  obtain ⟨m, hm⟩ := hr'
  have h1 := BuildQuery_le h n (max n m) (Nat.le_max_left n m) qb r hn
  have h2 := BuildQuery_le h m (max n m) (Nat.le_max_right n m) qb r' hm
  rw [h1] at h2
  exact Except.ok.inj h2

/-- Nested calls that all return do so within one common budget. -/
theorem common_fuel (h : Heap) (ctes : List CTE) (rs : List (String × List Value))
    (hrs : List.Forall₂ (fun cte r => Returns h cte.QueryParts r) ctes rs) :
    ∃ fuel, List.Forall₂ (fun cte r => BuildQuery h fuel cte.QueryParts = .ok r) ctes rs := by
  induction hrs with
  | nil => exact ⟨0, List.Forall₂.nil⟩
  | cons hd _ ih =>
    obtain ⟨n, hn⟩ := hd
    obtain ⟨m, hm⟩ := ih
    refine ⟨max n m, List.Forall₂.cons ?_ ?_⟩
    · exact BuildQuery_le h n _ (Nat.le_max_left n m) _ _ hn
    · exact hm.imp (fun cte r hcr => BuildQuery_le h m _ (Nat.le_max_right n m) _ _ hcr)

/-- When every nested call returns, the call returns the closed form of the body. -/
theorem Returns_closed (h : Heap) (qb : Ptr) (o : QueryBuilder)
    (rs : List (String × List Value)) (hd : deref h qb = some o)
    (hrs : List.Forall₂ (fun cte r => Returns h cte.QueryParts r) o.CTEs rs) :
    Returns h qb
      ((if o.CTEs = [] then "" else
          "WITH " ++ strings.Join
            (List.zipWith (fun cte r => cte.Name ++ " AS (" ++ r.1 ++ ")") o.CTEs rs) ", " ++
            " ") ++
        ("SELECT " ++ strings.Join o.Fields ", " ++ " FROM " ++ o.TableName ++
          String.join (o.Relations.map (fun r =>
            " JOIN " ++ r.Table ++ " ON " ++ o.TableName ++ "." ++ r.PrimaryKey ++ " = " ++
              r.Table ++ "." ++ r.ForeignKey))) ++
        (if o.Conditions = [] ∧ o.OrConditions = [] then "" else
          " WHERE " ++ strings.Join
            (o.Conditions.mapIdx
                (fun i c => c.Field ++ " " ++ c.Operator ++ " $" ++ fmtInt (1 + i)) ++
              (if o.OrConditions = [] then [] else
                ["(" ++ strings.Join
                  (o.OrConditions.mapIdx (fun j c =>
                    c.Field ++ " " ++ c.Operator ++ " $" ++
                      fmtInt (1 + o.Conditions.length + j))) " OR " ++ ")"]))
            " AND "),
       (rs.map (fun r => r.2)).flatten ++ o.Conditions.map (fun c => c.Value) ++
         o.OrConditions.map (fun c => c.Value)) := by
  obtain ⟨fuel, hfuel⟩ := common_fuel h o.CTEs rs hrs
  refine ⟨fuel + 1, ?_⟩
  rw [BuildQuery]
  simp only [hd]
  exact BuildQueryBody_ok (BuildQuery h fuel) o rs hfuel

/-- If the CTE loop returns, every nested call it made returned. -/
theorem cteLoop_inv (call : Ptr → Result (String × List Value)) (ctes : List CTE)
    (st res : List String × List Value) (hok : cteLoop call ctes st = .ok res) :
    ∃ rs, List.Forall₂ (fun cte r => call cte.QueryParts = .ok r) ctes rs := by
  induction ctes generalizing st with
  | nil => exact ⟨[], List.Forall₂.nil⟩
  | cons cte rest ih =>
    obtain ⟨parts, args⟩ := st
    simp only [cteLoop] at hok
    cases hcall : call cte.QueryParts with
    | error e => simp [hcall] at hok
    | ok r =>
      obtain ⟨q, a⟩ := r
      rw [hcall] at hok
      obtain ⟨rs, hrs⟩ := ih _ hok
      exact ⟨(q, a) :: rs, List.Forall₂.cons hcall hrs⟩

/-- A call that returns dereferenced its receiver and had every nested call return:
the hypotheses of `Returns_closed` are necessary for a result. -/
theorem Returns_inv (h : Heap) (qb : Ptr) (res : String × List Value)
    (hres : Returns h qb res) :
    ∃ (o : QueryBuilder) (rs : List (String × List Value)),
      deref h qb = some o ∧
      List.Forall₂ (fun cte r => Returns h cte.QueryParts r) o.CTEs rs := by
  obtain ⟨fuel, hfuel⟩ := hres
  cases fuel with
  | zero => simp [BuildQuery] at hfuel
  | succ n =>
    rw [BuildQuery] at hfuel
    cases hd : deref h qb with
    | none => simp [hd] at hfuel
    | some o =>
      simp only [hd] at hfuel
      refine ⟨o, ?_⟩
      by_cases hc : o.CTEs.length > 0
      · unfold BuildQueryBody at hfuel
        simp only [hc, if_true] at hfuel
        cases hloop : cteLoop (BuildQuery h n) o.CTEs ([], []) with
        | error e => simp [hloop] at hfuel
        | ok st =>
          obtain ⟨rs, hrs⟩ := cteLoop_inv _ _ _ _ hloop
          exact ⟨rs, rfl, hrs.imp (fun cte r hcr => ⟨n, hcr⟩)⟩
      · have hnil : o.CTEs = [] := by
          cases hl : o.CTEs with
          | nil => rfl
          | cons c cs => simp [hl] at hc
        exact ⟨[], rfl, by rw [hnil]; exact List.Forall₂.nil⟩

/-- Without CTE entries one unit of budget is enough, whatever the rest. -/
theorem BuildQuery_noCTE (h : Heap) (fuel : Nat) (qb : Ptr) (o : QueryBuilder)
    (hd : deref h qb = some o) (hc : o.CTEs = []) :
    BuildQuery h (fuel + 1) qb = BuildQueryBody (BuildQuery h 0) o := by
  rw [BuildQuery]
  simp only [hd]
  unfold BuildQueryBody
  simp [hc]

/-! ## Auxiliary lemmas: the heap -/

/-- Writing back the object an address already holds leaves the heap as it is. -/
theorem set_same (h : Heap) (a : Nat) (o : QueryBuilder) (ho : h[a]? = some o) :
    h.set a o = h := by
  apply List.ext_getElem?
  intro n
  rw [List.getElem?_set]
  by_cases han : a = n
  · subst han
    have hlt : a < h.length := by
      rcases Nat.lt_or_ge a h.length with hlt | hge
      · exact hlt
      · rw [List.getElem?_eq_none hge] at ho
        cases ho
    simp [hlt, ho]
  · simp [han]

/-- An address that holds an object is allocated. -/
theorem lt_length_of_getElem? (h : Heap) (a : Nat) (o : QueryBuilder)
    (ho : h[a]? = some o) : a < h.length := by
  rcases Nat.lt_or_ge a h.length with hlt | hge
  · exact hlt
  · rw [List.getElem?_eq_none hge] at ho
    cases ho

/-! ## Auxiliary lemmas: nesting -/

/-- If the body returns, every nested call it made returned. -/
theorem BuildQueryBody_inv (call : Ptr → Result (String × List Value)) (o : QueryBuilder)
    (res : String × List Value) (hok : BuildQueryBody call o = .ok res) :
    ∃ rs, List.Forall₂ (fun cte r => call cte.QueryParts = .ok r) o.CTEs rs := by
  by_cases hc : o.CTEs.length > 0
  · unfold BuildQueryBody at hok
    simp only [hc, if_true] at hok
    cases hloop : cteLoop call o.CTEs ([], []) with
    | error e => simp [hloop] at hok
    | ok st => exact cteLoop_inv _ _ _ _ hloop
  · have hnil : o.CTEs = [] := by
      cases hl : o.CTEs with
      | nil => rfl
      | cons c cs => simp [hl] at hc
    exact ⟨[], by rw [hnil]; exact List.Forall₂.nil⟩

/-- A family of results, one per list element, as a list. -/
theorem forall₂_of_forall_mem {α β : Type} (P : α → β → Prop) (l : List α)
    (hl : ∀ x, x ∈ l → ∃ r, P x r) : ∃ rs, List.Forall₂ P l rs := by
  induction l with
  | nil => exact ⟨[], List.Forall₂.nil⟩
  | cons x xs ih =>
    obtain ⟨r, hr⟩ := hl x (List.mem_cons_self x xs)
    obtain ⟨rs, hrs⟩ := ih (fun y hy => hl y (List.mem_cons_of_mem x hy))
    exact ⟨r :: rs, List.Forall₂.cons hr hrs⟩

/-- Each element of the left list has a related one. -/
theorem forall_mem_of_forall₂ {α β : Type} (P : α → β → Prop) (l : List α) (rs : List β)
    (hrs : List.Forall₂ P l rs) : ∀ x, x ∈ l → ∃ r, P x r := by
  induction hrs with
  | nil => intro x hx; cases hx
  | cons hd _ ih =>
    intro x hx
    rcases List.mem_cons.mp hx with hx | hx
    · subst hx; exact ⟨_, hd⟩
    · exact ih x hx

/-- A well-nested receiver gets a result. -/
theorem Returns_of_WellNested (h : Heap) (qb : Ptr) (hw : WellNested h qb) :
    ∃ res, Returns h qb res := by
  induction hw with
  | node qb o hd _ ih =>
    obtain ⟨rs, hrs⟩ := forall₂_of_forall_mem
      (fun (cte : CTE) r => Returns h cte.QueryParts r) o.CTEs ih
    exact ⟨_, Returns_closed h qb o rs hd hrs⟩

/-- A receiver that gets a result within `fuel` is well nested. -/
theorem WellNested_of_ok (h : Heap) (fuel : Nat) :
    ∀ (qb : Ptr) (res : String × List Value),
      BuildQuery h fuel qb = .ok res → WellNested h qb := by
  induction fuel with
  | zero => intro qb res hok; simp [BuildQuery] at hok
  | succ n ih =>
    intro qb res hok
    rw [BuildQuery] at hok
    cases hd : deref h qb with
    | none => simp [hd] at hok
    | some o =>
      simp only [hd] at hok
      obtain ⟨rs, hrs⟩ := BuildQueryBody_inv _ _ _ hok
      refine WellNested.node qb o hd ?_
      intro cte hcte
      obtain ⟨r, hr⟩ := forall_mem_of_forall₂ _ _ _ hrs cte hcte
      exact ih _ _ hr

/-- The argument list is as long as the total number of conditions, counted to the
depth of the recursion budget. -/
theorem length_eq_totalConditions (h : Heap) (fuel : Nat) :
    ∀ (qb : Ptr) (text : String) (args : List Value),
      BuildQuery h fuel qb = .ok (text, args) → args.length = totalConditions h fuel qb := by
  induction fuel with
  | zero => intro qb text args hok; simp [BuildQuery] at hok
  | succ n ih =>
    intro qb text args hok
    rw [BuildQuery] at hok
    cases hd : deref h qb with
    | none => simp [hd] at hok
    | some o =>
      simp only [hd] at hok
      obtain ⟨rs, hrs⟩ := BuildQueryBody_inv _ _ _ hok
      rw [BuildQueryBody_ok _ o rs hrs] at hok
      have hargs := (Prod.mk.inj (Except.ok.inj hok)).2
      have hsum : ∀ (ctes : List CTE) (rs : List (String × List Value)),
          List.Forall₂ (fun cte r => BuildQuery h n cte.QueryParts = .ok r) ctes rs →
          (rs.map (fun r => r.2.length)).sum =
            (ctes.map (fun cte => totalConditions h n cte.QueryParts)).sum := by
        intro ctes rs hf
        induction hf with
        | nil => rfl
        | cons hd' _ ih' =>
          simp only [List.map_cons, List.sum_cons, ih']
          rw [ih _ _ _ hd']
      rw [totalConditions]
      simp only [hd]
      rw [← hargs, ← hsum o.CTEs rs hrs]
      simp only [List.length_append, List.length_map, List.length_flatten, List.map_map]
      have hcomp : (List.length ∘ fun (r : String × List Value) => r.2) =
          fun r => r.2.length := rfl
      rw [hcomp]
      omega

/-- The CTE loop keeps every outcome other than an exhausted budget when the nested
calls keep theirs. -/
theorem cteLoop_stable (call call' : Ptr → Result (String × List Value))
    (hcc : ∀ p r, call p = r → r ≠ .error .outOfFuel → call' p = r) (ctes : List CTE)
    (st : List String × List Value) (r : Result (List String × List Value))
    (hr : cteLoop call ctes st = r) (hne : r ≠ .error .outOfFuel) :
    cteLoop call' ctes st = r := by
  induction ctes generalizing st with
  | nil => simpa [cteLoop] using hr
  | cons cte rest ih =>
    obtain ⟨parts, args⟩ := st
    simp only [cteLoop] at hr ⊢
    cases hcall : call cte.QueryParts with
    | error e =>
      rw [hcall] at hr
      have he : (Except.error e : Result (String × List Value)) ≠ .error .outOfFuel := by
        intro hbad
        apply hne
        rw [← hr]
        cases Except.error.inj hbad
        rfl
      rw [hcc _ _ hcall he]
      exact hr
    | ok v =>
      rw [hcall] at hr
      rw [hcc _ _ hcall (by intro hbad; cases hbad)]
      exact ih _ hr

/-- The body keeps every outcome other than an exhausted budget. -/
theorem BuildQueryBody_stable (call call' : Ptr → Result (String × List Value))
    (hcc : ∀ p r, call p = r → r ≠ .error .outOfFuel → call' p = r) (o : QueryBuilder)
    (r : Result (String × List Value))
    (hr : BuildQueryBody call o = r) (hne : r ≠ .error .outOfFuel) :
    BuildQueryBody call' o = r := by
  unfold BuildQueryBody at hr ⊢
  by_cases hc : o.CTEs.length > 0
  · simp only [hc, if_true] at hr ⊢
    cases hloop : cteLoop call o.CTEs ([], []) with
    | error e =>
      rw [hloop] at hr
      have he : (Except.error e : Result (List String × List Value)) ≠ .error .outOfFuel := by
        intro hbad
        apply hne
        rw [← hr]
        cases Except.error.inj hbad
        rfl
      rw [cteLoop_stable call call' hcc _ _ _ hloop he]
      exact hr
    | ok st =>
      rw [hloop] at hr
      rw [cteLoop_stable call call' hcc _ _ _ hloop (by intro hbad; cases hbad)]
      exact hr
  · simp only [hc, if_false] at hr ⊢
    exact hr

/-- A larger budget keeps every outcome other than an exhausted budget. -/
theorem BuildQuery_stable (h : Heap) (n m : Nat) (hnm : n ≤ m) :
    ∀ (qb : Ptr) (r : Result (String × List Value)),
      BuildQuery h n qb = r → r ≠ .error .outOfFuel → BuildQuery h m qb = r := by
  induction n generalizing m with
  | zero =>
    intro qb r hr hne
    exact absurd (by rw [← hr]; rfl) hne
  | succ k ih =>
    intro qb r hr hne
    obtain ⟨m', rfl⟩ : ∃ m', m = m' + 1 := ⟨m - 1, by omega⟩
    rw [BuildQuery] at hr ⊢
    cases hd : deref h qb with
    | none => simpa [hd] using hr
    | some o =>
      simp only [hd] at hr ⊢
      exact BuildQueryBody_stable _ _ (ih m' (by omega)) o r hr hne

/-- A mutator call on a receiver that addresses `o` replaces `o` by an object whose
CTE list is that of `o` followed by what the call attaches. -/
theorem MutatorCall.run_ok (h : Heap) (a : Nat) (o : QueryBuilder) (c : MutatorCall)
    (ho : h[a]? = some o) :
    ∃ x : QueryBuilder, c.run h (some a) = .ok (h.set a x, some a) ∧
      x.CTEs = o.CTEs ++ c.toCTEs := by
  cases c <;>
    exact ⟨_,
      by simp [MutatorCall.run, Select, Where, OrWhere, Join, AddCTE, mutate, ho]; rfl,
      by simp [MutatorCall.toCTEs]⟩

/-- Allocating an object without CTE entries keeps nesting finite. -/
theorem FinitelyNested_append (h : Heap) (x : QueryBuilder) (hx : x.CTEs = []) (qb : Ptr)
    (hf : FinitelyNested h qb) : FinitelyNested (h ++ [x]) qb := by
  induction hf with
  | leaf qb hd =>
    cases qb with
    | none => exact FinitelyNested.leaf none rfl
    | some b =>
      by_cases hb : b = h.length
      · subst hb
        refine FinitelyNested.node _ x (by simp [deref]) ?_
        intro cte hcte
        rw [hx] at hcte
        cases hcte
      · refine FinitelyNested.leaf _ ?_
        have hge : h.length ≤ b := by
          rcases Nat.lt_or_ge b h.length with hlt | hge
          · simp [deref, List.getElem?_eq_getElem hlt] at hd
          · exact hge
        simp only [deref]
        apply List.getElem?_eq_none
        simp only [List.length_append, List.length_singleton]
        omega
  | node qb o hd _ ih =>
    cases qb with
    | none => simp [deref] at hd
    | some b =>
      have hlt := lt_length_of_getElem? h b o hd
      exact FinitelyNested.node _ o
        (by simp [deref, List.getElem?_append_left hlt]; exact hd) ih

/-- Replacing the object at `a` keeps nesting finite under every pointer that does not
lead to `a`. -/
theorem FinitelyNested_set_of_not_reaches (h : Heap) (a : Nat) (x : QueryBuilder) (qb : Ptr)
    (hf : FinitelyNested h qb) (hnr : ¬ Reaches h qb a) :
    FinitelyNested (h.set a x) qb := by
  induction hf with
  | leaf qb hd =>
    cases qb with
    | none => exact FinitelyNested.leaf none rfl
    | some b =>
      have hba : a ≠ b := fun hab => hnr (hab ▸ Reaches.here a)
      exact FinitelyNested.leaf _
        (by simp only [deref] at hd ⊢; rw [List.getElem?_set_ne hba]; exact hd)
  | node qb o hd _ ih =>
    cases qb with
    | none => simp [deref] at hd
    | some b =>
      have hba : a ≠ b := fun hab => hnr (hab ▸ Reaches.here a)
      refine FinitelyNested.node _ o
        (by simp only [deref] at hd ⊢; rw [List.getElem?_set_ne hba]; exact hd) ?_
      intro cte hcte
      exact ih cte hcte (fun hr => hnr (Reaches.step b o cte a hd hcte hr))

/-- Replacing the object at `a` by one that keeps its CTE entries and adds entries
under which nesting is finite keeps nesting finite everywhere. -/
theorem FinitelyNested_set (h : Heap) (a : Nat) (o x : QueryBuilder) (extra : List CTE)
    (ho : h[a]? = some o) (hx : x.CTEs = o.CTEs ++ extra)
    (hextra : ∀ cte, cte ∈ extra → FinitelyNested (h.set a x) cte.QueryParts) (qb : Ptr)
    (hf : FinitelyNested h qb) : FinitelyNested (h.set a x) qb := by
  have hlt := lt_length_of_getElem? h a o ho
  induction hf with
  | leaf qb hd =>
    cases qb with
    | none => exact FinitelyNested.leaf none rfl
    | some b =>
      have hba : a ≠ b := by
        intro hab
        subst hab
        simp [deref, ho] at hd
      exact FinitelyNested.leaf _
        (by simp only [deref] at hd ⊢; rw [List.getElem?_set_ne hba]; exact hd)
  | node qb o' hd _ ih =>
    cases qb with
    | none => simp [deref] at hd
    | some b =>
      by_cases hba : a = b
      · subst hba
        have hoo : o' = o := by
          simp only [deref] at hd
          rw [ho] at hd
          exact (Option.some.inj hd).symm
        subst hoo
        refine FinitelyNested.node _ x (by simp [deref, List.getElem?_set_self hlt]) ?_
        intro cte hcte
        rw [hx] at hcte
        rcases List.mem_append.mp hcte with hold | hnew
        · exact ih cte hold
        · exact hextra cte hnew
      · refine FinitelyNested.node _ o'
          (by simp only [deref] at hd ⊢; rw [List.getElem?_set_ne hba]; exact hd) ?_
        intro cte hcte
        exact ih cte hcte

/-- The CTE loop does not exhaust the budget unless a nested call does. -/
theorem cteLoop_ne_outOfFuel (call : Ptr → Result (String × List Value)) (ctes : List CTE)
    (hcall : ∀ cte, cte ∈ ctes → call cte.QueryParts ≠ .error .outOfFuel)
    (st : List String × List Value) :
    cteLoop call ctes st ≠ .error .outOfFuel := by
  induction ctes generalizing st with
  | nil => simp [cteLoop]
  | cons cte rest ih =>
    obtain ⟨parts, args⟩ := st
    simp only [cteLoop]
    cases hc : call cte.QueryParts with
    | error e =>
      intro hbad
      apply hcall cte (List.mem_cons_self cte rest)
      rw [hc]
      simpa using hbad
    | ok v => exact ih (fun c hcm => hcall c (List.mem_cons_of_mem cte hcm)) _

/-- The body does not exhaust the budget unless a nested call does. -/
theorem BuildQueryBody_ne_outOfFuel (call : Ptr → Result (String × List Value))
    (o : QueryBuilder)
    (hcall : ∀ cte, cte ∈ o.CTEs → call cte.QueryParts ≠ .error .outOfFuel) :
    BuildQueryBody call o ≠ .error .outOfFuel := by
  cases hall : cteLoop call o.CTEs ([], []) with
  | error e =>
    have he := cteLoop_ne_outOfFuel call o.CTEs hcall ([], [])
    rw [hall] at he
    unfold BuildQueryBody
    by_cases hc : o.CTEs.length > 0
    · simp only [hc, if_true, hall]
      intro hbad
      apply he
      cases Except.error.inj hbad
      rfl
    · have hnil : o.CTEs = [] := by
        cases hl : o.CTEs with
        | nil => rfl
        | cons c cs => simp [hl] at hc
      rw [hnil] at hall
      simp [cteLoop] at hall
  | ok st =>
    obtain ⟨rs, hrs⟩ := cteLoop_inv call o.CTEs _ _ hall
    rw [BuildQueryBody_ok call o rs hrs]
    intro hbad
    cases hbad

/-- Under finite nesting the recursion ends: some budget is not exhausted. -/
theorem terminates_of_FinitelyNested (h : Heap) (qb : Ptr) (hf : FinitelyNested h qb) :
    ∃ fuel, BuildQuery h fuel qb ≠ .error .outOfFuel := by
  induction hf with
  | leaf qb hd =>
    refine ⟨1, ?_⟩
    rw [BuildQuery]
    simp [hd]
  | node qb o hd _ ih =>
    have hcommon : ∀ ctes : List CTE,
        (∀ cte, cte ∈ ctes → ∃ fuel, BuildQuery h fuel cte.QueryParts ≠ .error .outOfFuel) →
        ∃ fuel, ∀ cte, cte ∈ ctes → BuildQuery h fuel cte.QueryParts ≠ .error .outOfFuel := by
      intro ctes
      induction ctes with
      | nil => intro _; exact ⟨0, fun cte hcte => by cases hcte⟩
      | cons c cs ihc =>
        intro hall
        obtain ⟨n, hn⟩ := hall c (List.mem_cons_self c cs)
        obtain ⟨m, hm⟩ := ihc (fun x hx => hall x (List.mem_cons_of_mem c hx))
        refine ⟨max n m, ?_⟩
        intro cte hcte
        rcases List.mem_cons.mp hcte with hcte | hcte
        · subst hcte
          rw [BuildQuery_stable h n (max n m) (Nat.le_max_left n m) _ _ rfl hn]
          exact hn
        · rw [BuildQuery_stable h m (max n m) (Nat.le_max_right n m) _ _ rfl (hm cte hcte)]
          exact hm cte hcte
    obtain ⟨n, hn⟩ := hcommon o.CTEs ih
    refine ⟨n + 1, ?_⟩
    rw [BuildQuery]
    simp only [hd]
    exact BuildQueryBody_ne_outOfFuel _ o hn

/-- Under finite nesting nothing that can be reached lies on a cycle of CTE entries. -/
theorem no_cycle_of_FinitelyNested (h : Heap) (qb : Ptr) (hf : FinitelyNested h qb) :
    ∀ a, Reaches h qb a →
      ¬ ∃ o cte, h[a]? = some o ∧ cte ∈ o.CTEs ∧ Reaches h cte.QueryParts a := by
  induction hf with
  | leaf qb hd =>
    intro a hr
    cases hr with
    | here =>
      rintro ⟨o, cte, ho, _, _⟩
      simp [deref, ho] at hd
    | step b o cte a hb _ _ => simp [deref, hb] at hd
  | node qb o hd _ ih =>
    intro a hr
    cases hr with
    | here =>
      rintro ⟨o', cte, ho', hcte, hback⟩
      have hoo : o' = o := by
        simp only [deref] at hd
        rw [ho'] at hd
        exact Option.some.inj hd
      subst hoo
      exact ih cte hcte a hback ⟨o', cte, ho', hcte, hback⟩
    | step b o' cte a hb hcte hra =>
      have hoo : o' = o := by
        simp only [deref] at hd
        rw [hb] at hd
        exact Option.some.inj hd
      subst hoo
      exact ih cte hcte a hra

/-- One interface call that attaches no ancestor keeps nesting finite everywhere. -/
theorem FinitelyNested_step (h h' : Heap) (c : InterfaceCall)
    (hinv : ∀ qb, FinitelyNested h qb) (hsafe : c.AttachesNoAncestor h)
    (hrun : c.run h = .ok h') : ∀ qb, FinitelyNested h' qb := by
  cases c with
  | newQueryBuilder t =>
    simp only [InterfaceCall.run, NewQueryBuilder] at hrun
    cases Except.ok.inj hrun
    intro qb
    exact FinitelyNested_append h _ rfl qb (hinv qb)
  | mutator p c =>
    cases p with
    | none =>
      cases c <;>
        simp [InterfaceCall.run, MutatorCall.run, Select, Where, OrWhere, Join, AddCTE,
          mutate] at hrun
    | some a =>
      cases ho : h[a]? with
      | none =>
        cases c <;>
          simp [InterfaceCall.run, MutatorCall.run, Select, Where, OrWhere, Join, AddCTE,
            mutate, ho] at hrun
      | some o =>
        obtain ⟨x, hx, hctes⟩ := MutatorCall.run_ok h a o c ho
        simp only [InterfaceCall.run, hx] at hrun
        cases Except.ok.inj hrun
        intro qb
        refine FinitelyNested_set h a o x c.toCTEs ho hctes ?_ qb (hinv qb)
        intro cte hcte
        cases c with
        | addCTE n q =>
          simp only [MutatorCall.toCTEs, List.mem_singleton] at hcte
          subst hcte
          exact FinitelyNested_set_of_not_reaches h a x q (hinv q) hsafe
        | select fs => simp [MutatorCall.toCTEs] at hcte
        | whereAnd f op v => simp [MutatorCall.toCTEs] at hcte
        | whereOr f op v => simp [MutatorCall.toCTEs] at hcte
        | join t fk pk => simp [MutatorCall.toCTEs] at hcte

/-- A sequence of interface calls that attach no ancestor keeps nesting finite
everywhere. -/
theorem FinitelyNested_program (cs : List InterfaceCall) :
    ∀ (h h' : Heap), (∀ qb, FinitelyNested h qb) → AttachNoAncestor h cs →
      runProgram h cs = .ok h' → ∀ qb, FinitelyNested h' qb := by
  induction cs with
  | nil =>
    intro h h' hinv _ hrun
    simp only [runProgram] at hrun
    cases Except.ok.inj hrun
    exact hinv
  | cons c rest ih =>
    intro h h' hinv hsafe hrun
    simp only [runProgram] at hrun
    simp only [AttachNoAncestor] at hsafe
    cases hc : c.run h with
    | error e => simp [hc] at hrun
    | ok h1 =>
      rw [hc] at hrun
      have hrest := hsafe.2
      rw [hc] at hrest
      exact ih h1 h' (FinitelyNested_step h h1 c hinv hsafe.1 hc) hrest hrun

/-! ## Auxiliary lemmas: the state transformer -/

/-- The body is the CTE clause followed by the tail. -/
theorem BuildQueryBody_eq_tail (call : Ptr → Result (String × List Value))
    (o : QueryBuilder) :
    BuildQueryBody call o =
      match (if o.CTEs.length > 0 then
          match cteLoop call o.CTEs ([], []) with
          | .error e => .error e
          | .ok (cteParts, args) =>
            .ok ("" ++ ("WITH " ++ strings.Join cteParts ", " ++ " "), args)
        else .ok ("", []) : Result (String × List Value)) with
      | .error e => .error e
      | .ok (query, args) => .ok (BuildQueryTail o query args) := by
  unfold BuildQueryBody BuildQueryTail
  by_cases hc : o.CTEs.length > 0
  · simp only [hc, if_true]
    cases cteLoop call o.CTEs ([], []) with
    | error e => rfl
    | ok st =>
      simp only
      split <;> rfl
  · simp only [hc, if_false]
    split <;> rfl

/-- When the threaded nested calls leave the heap `h` as it is and agree with the
plain ones, so does the threaded CTE loop. -/
theorem cteLoopS_eq (h : Heap) (callS : Heap → Ptr → Result (Heap × (String × List Value)))
    (call : Ptr → Result (String × List Value))
    (hcall : ∀ p, callS h p = (call p).map (fun r => (h, r))) (ctes : List CTE)
    (parts : List String) (args : List Value) :
    cteLoopS callS ctes (h, parts, args) =
      (cteLoop call ctes (parts, args)).map (fun st => (h, st.1, st.2)) := by
  induction ctes generalizing parts args with
  | nil => rfl
  | cons cte rest ih =>
    simp only [cteLoopS, cteLoop, hcall]
    cases call cte.QueryParts with
    | error e => rfl
    | ok r =>
      obtain ⟨q, a⟩ := r
      exact ih _ _

/-- The state transformer leaves the heap as it is and returns what `BuildQuery`
returns. -/
theorem BuildQueryS_eq (h : Heap) (fuel : Nat) :
    ∀ qb, BuildQueryS fuel h qb = (BuildQuery h fuel qb).map (fun r => (h, r)) := by
  induction fuel with
  | zero => intro qb; rfl
  | succ n ih =>
    intro qb
    rw [BuildQueryS, BuildQuery]
    cases hd : deref h qb with
    | none => rfl
    | some o =>
      simp only []
      rw [BuildQueryBody_eq_tail, cteLoopS_eq h (BuildQueryS n) (BuildQuery h n) ih]
      by_cases hc : o.CTEs.length > 0
      · simp only [hc, if_true]
        cases cteLoop (BuildQuery h n) o.CTEs ([], []) with
        | error e => rfl
        | ok st => simp [Except.map, hd]
      · simp [hc, Except.map, hd]

/-! ## The claims -/

/-- C1, the code at the failing input: a CTE with one condition attached to a parent
with one condition of its own.  Two arguments are returned, but the two
placeholders of the text are both `$1` and there is no `$2`. -/
theorem C1_placeholders_collide_across_cte :
    scenarioCollision =
      .ok ("WITH recent AS (SELECT id FROM orders WHERE created_at > $1) " ++
            "SELECT * FROM recent WHERE status = $1",
           [.int 20240101, .str "paid"]) :=
  rfl

/-- C2: for an assembler with no CTE entries, `m` AND-conditions and `n`
OR-conditions, `BuildQuery` returns; the i-th AND-condition (counting from 1) is
rendered as `<field> <operator> $i`, the j-th OR-condition as
`<field> <operator> $(m+j)`; these renderings are the ones that make up the filter
clause of the returned text; and the returned arguments are the AND values in
insertion order followed by the OR values in insertion order.  (Indices `i`, `j`
below count from 0, so the placeholders are `i + 1` and `m + (j + 1)`.) -/
theorem C2_conditions_numbered_and_then_or (h : Heap) (fuel : Nat) (qb : Ptr)
    (o : QueryBuilder) (hd : deref h qb = some o) (hc : o.CTEs = []) :
    ∃ ands ors : List String,
      ands.length = o.Conditions.length ∧ ors.length = o.OrConditions.length ∧
      (∀ (i : Nat) (hi : i < o.Conditions.length) (hi' : i < ands.length),
        ands[i] = o.Conditions[i].Field ++ " " ++ o.Conditions[i].Operator ++ " $" ++
          fmtInt (i + 1)) ∧
      (∀ (j : Nat) (hj : j < o.OrConditions.length) (hj' : j < ors.length),
        ors[j] = o.OrConditions[j].Field ++ " " ++ o.OrConditions[j].Operator ++ " $" ++
          fmtInt (o.Conditions.length + (j + 1))) ∧
      BuildQuery h (fuel + 1) qb =
        .ok ("SELECT " ++ strings.Join o.Fields ", " ++ " FROM " ++ o.TableName ++
              String.join (o.Relations.map (fun r =>
                " JOIN " ++ r.Table ++ " ON " ++ o.TableName ++ "." ++ r.PrimaryKey ++ " = " ++
                  r.Table ++ "." ++ r.ForeignKey)) ++
              (if o.Conditions = [] ∧ o.OrConditions = [] then "" else
                " WHERE " ++ strings.Join
                  (ands ++ (if o.OrConditions = [] then [] else
                    ["(" ++ strings.Join ors " OR " ++ ")"])) " AND "),
             o.Conditions.map (fun c => c.Value) ++ o.OrConditions.map (fun c => c.Value)) := by
  refine ⟨o.Conditions.mapIdx
            (fun i c => c.Field ++ " " ++ c.Operator ++ " $" ++ fmtInt (1 + i)),
          o.OrConditions.mapIdx (fun j c =>
            c.Field ++ " " ++ c.Operator ++ " $" ++ fmtInt (1 + o.Conditions.length + j)),
          List.length_mapIdx, List.length_mapIdx, ?_, ?_, ?_⟩
  · intro i hi hi'
    rw [List.getElem_mapIdx, Nat.add_comm 1 i]
  · intro j hj hj'
    rw [List.getElem_mapIdx]
    congr 2
    omega
  · rw [BuildQuery_noCTE h fuel qb o hd hc,
      BuildQueryBody_ok (BuildQuery h 0) o [] (by rw [hc]; exact List.Forall₂.nil)]
    simp [hc, String.append_assoc]

/-- C2 witness: `usersObj`, with two AND-conditions and two OR-conditions. -/
theorem C2_conditions_numbered_and_then_or_witness :
    (deref usersHeap (some 0) = some usersObj ∧ usersObj.CTEs = []) ∧
    ∃ ands ors : List String,
      ands.length = usersObj.Conditions.length ∧ ors.length = usersObj.OrConditions.length ∧
      (∀ (i : Nat) (hi : i < usersObj.Conditions.length) (hi' : i < ands.length),
        ands[i] = usersObj.Conditions[i].Field ++ " " ++ usersObj.Conditions[i].Operator ++
          " $" ++ fmtInt (i + 1)) ∧
      (∀ (j : Nat) (hj : j < usersObj.OrConditions.length) (hj' : j < ors.length),
        ors[j] = usersObj.OrConditions[j].Field ++ " " ++ usersObj.OrConditions[j].Operator ++
          " $" ++ fmtInt (usersObj.Conditions.length + (j + 1))) ∧
      BuildQuery usersHeap (0 + 1) (some 0) =
        .ok ("SELECT " ++ strings.Join usersObj.Fields ", " ++ " FROM " ++ usersObj.TableName ++
              String.join (usersObj.Relations.map (fun r =>
                " JOIN " ++ r.Table ++ " ON " ++ usersObj.TableName ++ "." ++ r.PrimaryKey ++
                  " = " ++ r.Table ++ "." ++ r.ForeignKey)) ++
              (if usersObj.Conditions = [] ∧ usersObj.OrConditions = [] then "" else
                " WHERE " ++ strings.Join
                  (ands ++ (if usersObj.OrConditions = [] then [] else
                    ["(" ++ strings.Join ors " OR " ++ ")"])) " AND "),
             usersObj.Conditions.map (fun c => c.Value) ++
               usersObj.OrConditions.map (fun c => c.Value)) :=
  ⟨⟨rfl, rfl⟩, C2_conditions_numbered_and_then_or usersHeap 0 (some 0) usersObj rfl rfl⟩

/-- C3, as stated, fails: `recentObj` has one AND-condition and one OR-condition,
yet `BuildQuery` returns three arguments, the first one spliced in from its CTE. -/
theorem C3_counterexample :
    deref recentHeap (some 1) = some recentObj ∧
    BuildQuery recentHeap 2 (some 1) =
      .ok ("WITH recent AS (SELECT id FROM orders WHERE created_at > $1) " ++
            "SELECT * FROM recent JOIN users ON recent.id = users.user_id " ++
            "WHERE total > $1 AND (status = $2)",
           [.int 20240101, .int 100, .str "paid"]) ∧
    ([.int 20240101, .int 100, .str "paid"] : List Value).length ≠
      recentObj.Conditions.length + recentObj.OrConditions.length :=
  ⟨rfl, rfl, by decide⟩

/-- C3, amended: for every assembler (whose nested CTE renders return), the
returned argument list has exactly `N` elements, where `N` is the number of
arguments returned for the nested assemblers of its CTE entries, plus its
AND-condition count, plus its OR-condition count; without CTE entries `N` is the
AND-condition count plus the OR-condition count. -/
theorem C3_argument_count (h : Heap) (qb : Ptr) (o : QueryBuilder)
    (rs : List (String × List Value)) (hd : deref h qb = some o)
    (hrs : List.Forall₂ (fun cte r => Returns h cte.QueryParts r) o.CTEs rs) :
    ∃ (text : String) (args : List Value),
      Returns h qb (text, args) ∧
      args.length =
        (rs.map (fun r => r.2.length)).sum + o.Conditions.length + o.OrConditions.length ∧
      (o.CTEs = [] → args.length = o.Conditions.length + o.OrConditions.length) := by
  have hlen : ((rs.map (fun r => r.2)).flatten ++ o.Conditions.map (fun c => c.Value) ++
      o.OrConditions.map (fun c => c.Value)).length =
      (rs.map (fun r => r.2.length)).sum + o.Conditions.length + o.OrConditions.length := by
    simp only [List.length_append, List.length_map, List.length_flatten, List.map_map]
    rfl
  refine ⟨_, _, Returns_closed h qb o rs hd hrs, hlen, ?_⟩
  intro hc
  rw [hlen]
  rw [hc] at hrs
  cases hrs
  simp

/-- C3 witness: `recentObj`, with one nested argument, one AND- and one
OR-condition. -/
theorem C3_argument_count_witness :
    (deref recentHeap (some 1) = some recentObj ∧
      List.Forall₂ (fun cte r => Returns recentHeap cte.QueryParts r) recentObj.CTEs
        [("SELECT id FROM orders WHERE created_at > $1", [.int 20240101])]) ∧
    ∃ (text : String) (args : List Value),
      Returns recentHeap (some 1) (text, args) ∧
      args.length =
        ([("SELECT id FROM orders WHERE created_at > $1", [Value.int 20240101])].map
          (fun r => r.2.length)).sum + recentObj.Conditions.length +
          recentObj.OrConditions.length ∧
      (recentObj.CTEs = [] →
        args.length = recentObj.Conditions.length + recentObj.OrConditions.length) :=
  ⟨⟨rfl, List.Forall₂.cons ⟨1, rfl⟩ List.Forall₂.nil⟩,
   C3_argument_count recentHeap (some 1) recentObj
     [("SELECT id FROM orders WHERE created_at > $1", [.int 20240101])]
     rfl (List.Forall₂.cons ⟨1, rfl⟩ List.Forall₂.nil)⟩

/-- C4: for an assembler with at least one OR-condition (whose nested CTE renders
return), the returned text ends with ` WHERE ` followed by the ` AND `-join of the
rendered AND-conditions in insertion order plus one last element, the
parenthesized ` OR `-join of the rendered OR-conditions in insertion order.  The
scenario of the specification renders as stated. -/
theorem C4_or_group_is_last_element :
    (∀ (h : Heap) (qb : Ptr) (o : QueryBuilder) (rs : List (String × List Value)),
      deref h qb = some o →
      List.Forall₂ (fun cte r => Returns h cte.QueryParts r) o.CTEs rs →
      o.OrConditions ≠ [] →
      ∃ (before : String) (args : List Value),
        Returns h qb
          (before ++ (" WHERE " ++ strings.Join
            (o.Conditions.mapIdx
                (fun i c => c.Field ++ " " ++ c.Operator ++ " $" ++ fmtInt (i + 1)) ++
              ["(" ++ strings.Join
                (o.OrConditions.mapIdx (fun j c =>
                  c.Field ++ " " ++ c.Operator ++ " $" ++
                    fmtInt (o.Conditions.length + (j + 1)))) " OR " ++ ")"])
            " AND "), args)) ∧
    scenarioWhereOrWhere =
      .ok ("SELECT id, name FROM users WHERE age > $1 AND (status = $2)",
           [.int 18, .str "active"]) := by
  refine ⟨?_, rfl⟩
  intro h qb o rs hd hrs hor
  have hcl := Returns_closed h qb o rs hd hrs
  have hf1 : (fun i (c : Condition) => c.Field ++ " " ++ c.Operator ++ " $" ++ fmtInt (i + 1)) =
      (fun i (c : Condition) => c.Field ++ " " ++ c.Operator ++ " $" ++ fmtInt (1 + i)) := by
    funext i c; rw [Nat.add_comm]
  have hf2 : (fun j (c : Condition) =>
        c.Field ++ " " ++ c.Operator ++ " $" ++ fmtInt (o.Conditions.length + (j + 1))) =
      (fun j (c : Condition) =>
        c.Field ++ " " ++ c.Operator ++ " $" ++ fmtInt (1 + o.Conditions.length + j)) := by
    funext j c
    have : o.Conditions.length + (j + 1) = 1 + o.Conditions.length + j := by omega
    rw [this]
  rw [hf1, hf2]
  simp only [hor, and_false, if_false] at hcl
  exact ⟨_, _, hcl⟩

/-- C4 witness: `recentObj`, which has a CTE entry, one AND- and one OR-condition. -/
theorem C4_or_group_is_last_element_witness :
    (deref recentHeap (some 1) = some recentObj ∧
      List.Forall₂ (fun cte r => Returns recentHeap cte.QueryParts r) recentObj.CTEs
        [("SELECT id FROM orders WHERE created_at > $1", [.int 20240101])] ∧
      recentObj.OrConditions ≠ []) ∧
    ∃ (before : String) (args : List Value),
      Returns recentHeap (some 1)
        (before ++ (" WHERE " ++ strings.Join
          (recentObj.Conditions.mapIdx
              (fun i c => c.Field ++ " " ++ c.Operator ++ " $" ++ fmtInt (i + 1)) ++
            ["(" ++ strings.Join
              (recentObj.OrConditions.mapIdx (fun j c =>
                c.Field ++ " " ++ c.Operator ++ " $" ++
                  fmtInt (recentObj.Conditions.length + (j + 1)))) " OR " ++ ")"])
          " AND "), args) :=
  ⟨⟨rfl, List.Forall₂.cons ⟨1, rfl⟩ List.Forall₂.nil, by decide⟩,
   C4_or_group_is_last_element.1 recentHeap (some 1) recentObj
     [("SELECT id FROM orders WHERE created_at > $1", [.int 20240101])]
     rfl (List.Forall₂.cons ⟨1, rfl⟩ List.Forall₂.nil) (by decide)⟩

/-- C5: for an assembler with at least one CTE entry (whose nested renders
return), the returned text is `WITH ` + the `, `-join, in insertion order, of
`<name> AS (<text returned for the nested assembler>)` + one space + the text
returned for the same assembler with its CTE list emptied; the arguments are the
nested arguments followed by those of the emptied assembler.  The scenario of the
specification renders as stated. -/
theorem C5_with_clause_then_own_text :
    (∀ (h : Heap) (a : Nat) (o : QueryBuilder) (rs : List (String × List Value)),
      h[a]? = some o →
      List.Forall₂ (fun cte r => Returns h cte.QueryParts r) o.CTEs rs →
      o.CTEs ≠ [] →
      ∃ (own : String) (ownArgs : List Value),
        Returns (h.set a { o with CTEs := [] }) (some a) (own, ownArgs) ∧
        Returns h (some a)
          ("WITH " ++ strings.Join
              (List.zipWith (fun cte r => cte.Name ++ " AS (" ++ r.1 ++ ")") o.CTEs rs) ", " ++
            " " ++ own,
           (rs.map (fun r => r.2)).flatten ++ ownArgs)) ∧
    (∀ cutoff : Value, scenarioCTE cutoff =
      .ok ("WITH recent AS (SELECT id FROM orders WHERE created_at > $1) SELECT * FROM recent",
           [cutoff])) := by
  refine ⟨?_, fun _ => rfl⟩
  intro h a o rs ha hrs hne
  have hlt : a < h.length := by
    rcases Nat.lt_or_ge a h.length with hlt | hge
    · exact hlt
    · rw [List.getElem?_eq_none hge] at ha
      cases ha
  have hown := Returns_closed (h.set a { o with CTEs := [] }) (some a) { o with CTEs := [] } []
    (by simp [deref, List.getElem?_set_self hlt]) List.Forall₂.nil
  have hall := Returns_closed h (some a) o rs ha hrs
  simp only [if_true, List.map_nil, List.flatten_nil, List.nil_append,
    String.empty_append] at hown
  simp only [hne, if_false, String.append_assoc, List.append_assoc] at hall
  refine ⟨_, _, hown, ?_⟩
  simpa only [String.append_assoc, List.append_assoc] using hall

/-- C5 witness: `recentObj` at address 1 of `recentHeap`. -/
theorem C5_with_clause_then_own_text_witness :
    (recentHeap[1]? = some recentObj ∧
      List.Forall₂ (fun cte r => Returns recentHeap cte.QueryParts r) recentObj.CTEs
        [("SELECT id FROM orders WHERE created_at > $1", [.int 20240101])] ∧
      recentObj.CTEs ≠ []) ∧
    ∃ (own : String) (ownArgs : List Value),
      Returns (recentHeap.set 1 { recentObj with CTEs := [] }) (some 1) (own, ownArgs) ∧
      Returns recentHeap (some 1)
        ("WITH " ++ strings.Join
            (List.zipWith (fun cte r => cte.Name ++ " AS (" ++ r.1 ++ ")") recentObj.CTEs
              [("SELECT id FROM orders WHERE created_at > $1", [Value.int 20240101])]) ", " ++
          " " ++ own,
         ([("SELECT id FROM orders WHERE created_at > $1", [Value.int 20240101])].map
            (fun r => r.2)).flatten ++ ownArgs) :=
  ⟨⟨rfl, List.Forall₂.cons ⟨1, rfl⟩ List.Forall₂.nil, by decide⟩,
   C5_with_clause_then_own_text.1 recentHeap 1 recentObj
     [("SELECT id FROM orders WHERE created_at > $1", [.int 20240101])]
     rfl (List.Forall₂.cons ⟨1, rfl⟩ List.Forall₂.nil) (by decide)⟩

/-- C6: for every assembler (whose nested CTE renders return), the returned
argument list is the concatenation, over the CTE entries in insertion order, of the
argument lists returned for the nested assemblers, followed by the assembler's own
AND-condition values in insertion order, followed by its own OR-condition values in
insertion order. -/
theorem C6_arguments_nested_then_own (h : Heap) (qb : Ptr) (o : QueryBuilder)
    (rs : List (String × List Value)) (hd : deref h qb = some o)
    (hrs : List.Forall₂ (fun cte r => Returns h cte.QueryParts r) o.CTEs rs) :
    ∃ text : String,
      Returns h qb
        (text,
         (rs.map (fun r => r.2)).flatten ++ o.Conditions.map (fun c => c.Value) ++
           o.OrConditions.map (fun c => c.Value)) :=
  ⟨_, Returns_closed h qb o rs hd hrs⟩

/-- C6 witness: `recentObj`, whose CTE contributes one argument. -/
theorem C6_arguments_nested_then_own_witness :
    (deref recentHeap (some 1) = some recentObj ∧
      List.Forall₂ (fun cte r => Returns recentHeap cte.QueryParts r) recentObj.CTEs
        [("SELECT id FROM orders WHERE created_at > $1", [.int 20240101])]) ∧
    ∃ text : String,
      Returns recentHeap (some 1)
        (text,
         ([("SELECT id FROM orders WHERE created_at > $1", [Value.int 20240101])].map
            (fun r => r.2)).flatten ++ recentObj.Conditions.map (fun c => c.Value) ++
           recentObj.OrConditions.map (fun c => c.Value)) :=
  ⟨⟨rfl, List.Forall₂.cons ⟨1, rfl⟩ List.Forall₂.nil⟩,
   C6_arguments_nested_then_own recentHeap (some 1) recentObj
     [("SELECT id FROM orders WHERE created_at > $1", [.int 20240101])]
     rfl (List.Forall₂.cons ⟨1, rfl⟩ List.Forall₂.nil)⟩

/-- C7, the code at the failing input: the CTE entry contributes two arguments, and
the parent's first own condition is rendered with `$1`, not `$3`. -/
theorem C7_parent_numbering_restarts_at_one :
    scenarioContinue =
      .ok ("WITH big AS (SELECT user_id FROM orders WHERE total > $1 AND year = $2) " ++
            "SELECT name FROM users WHERE active = $1",
           [.int 100, .int 2024, .bool true]) :=
  rfl

/-- C8: for an assembler with no CTE entries and no conditions, `BuildQuery`
returns exactly `SELECT <fields joined by ", "> FROM <table>` followed by one
` JOIN <table> ON <tableName>.<primaryKey> = <table>.<foreignKey>` per relation in
insertion order and nothing else, with an empty argument list.  The scenario of
the specification renders as stated. -/
theorem C8_no_conditions_no_where :
    (∀ (h : Heap) (fuel : Nat) (qb : Ptr) (o : QueryBuilder),
      deref h qb = some o → o.CTEs = [] → o.Conditions = [] → o.OrConditions = [] →
      BuildQuery h (fuel + 1) qb =
        .ok ("SELECT " ++ strings.Join o.Fields ", " ++ " FROM " ++ o.TableName ++
              String.join (o.Relations.map (fun r =>
                " JOIN " ++ r.Table ++ " ON " ++ o.TableName ++ "." ++ r.PrimaryKey ++ " = " ++
                  r.Table ++ "." ++ r.ForeignKey)),
             [])) ∧
    scenarioJoin = .ok ("SELECT * FROM users JOIN orders ON users.id = orders.user_id", []) := by
  refine ⟨?_, rfl⟩
  intro h fuel qb o hd hc ha ho
  rw [BuildQuery_noCTE h fuel qb o hd hc,
    BuildQueryBody_ok (BuildQuery h 0) o [] (by rw [hc]; exact List.Forall₂.nil)]
  simp [hc, ha, ho, String.append_assoc]

/-- C8 witness: a `users` object with two relations and no conditions. -/
theorem C8_no_conditions_no_where_witness :
    BuildQuery
        [{ TableName := "users", Fields := ["id", "name"], Conditions := [],
           OrConditions := [],
           Relations := [⟨"orders", "user_id", "id"⟩, ⟨"teams", "lead", "team_id"⟩],
           CTEs := [] }] (0 + 1) (some 0) =
      .ok ("SELECT " ++ strings.Join ["id", "name"] ", " ++ " FROM " ++ "users" ++
            String.join (([⟨"orders", "user_id", "id"⟩, ⟨"teams", "lead", "team_id"⟩] :
                List Relation).map (fun r =>
              " JOIN " ++ r.Table ++ " ON " ++ "users" ++ "." ++ r.PrimaryKey ++ " = " ++
                r.Table ++ "." ++ r.ForeignKey)),
           []) :=
  C8_no_conditions_no_where.1
    [{ TableName := "users", Fields := ["id", "name"], Conditions := [],
       OrConditions := [],
       Relations := [⟨"orders", "user_id", "id"⟩, ⟨"teams", "lead", "team_id"⟩],
       CTEs := [] }] 0 (some 0) _ rfl rfl rfl rfl

/-- C9: for every assembler (whose nested CTE renders return; the field list may
even be empty), the returned text contains `SELECT <f1>, <f2>, ... FROM <tableName>`
as one contiguous piece, the fields being the stored list as it is (insertion
order, nothing dropped), and with no CTE entries nothing precedes that piece.  Two
`Select` calls with a repeated field render all three fields in call order. -/
theorem C9_select_piece :
    (∀ (h : Heap) (qb : Ptr) (o : QueryBuilder) (rs : List (String × List Value)),
      deref h qb = some o →
      List.Forall₂ (fun cte r => Returns h cte.QueryParts r) o.CTEs rs →
      ∃ (before after : String) (args : List Value),
        Returns h qb
          (before ++ ("SELECT " ++ strings.Join o.Fields ", " ++ " FROM " ++ o.TableName) ++
            after, args) ∧
        (o.CTEs = [] → before = "")) ∧
    scenarioSelectTwice = .ok ("SELECT b, a, b FROM t", []) := by
  refine ⟨?_, rfl⟩
  intro h qb o rs hd hrs
  have hcl := Returns_closed h qb o rs hd hrs
  refine ⟨if o.CTEs = [] then "" else
      "WITH " ++ strings.Join
        (List.zipWith (fun cte r => cte.Name ++ " AS (" ++ r.1 ++ ")") o.CTEs rs) ", " ++ " ",
    String.join (o.Relations.map (fun r =>
        " JOIN " ++ r.Table ++ " ON " ++ o.TableName ++ "." ++ r.PrimaryKey ++ " = " ++
          r.Table ++ "." ++ r.ForeignKey)) ++
      (if o.Conditions = [] ∧ o.OrConditions = [] then "" else
        " WHERE " ++ strings.Join
          (o.Conditions.mapIdx
              (fun i c => c.Field ++ " " ++ c.Operator ++ " $" ++ fmtInt (1 + i)) ++
            (if o.OrConditions = [] then [] else
              ["(" ++ strings.Join
                (o.OrConditions.mapIdx (fun j c =>
                  c.Field ++ " " ++ c.Operator ++ " $" ++
                    fmtInt (1 + o.Conditions.length + j))) " OR " ++ ")"]))
          " AND "),
    (rs.map (fun r => r.2)).flatten ++ o.Conditions.map (fun c => c.Value) ++
      o.OrConditions.map (fun c => c.Value), ?_, ?_⟩
  · simpa only [String.append_assoc] using hcl
  · intro hc
    simp [hc]

/-- C9 witness: `recentObj`, where the piece follows the `WITH` clause. -/
theorem C9_select_piece_witness :
    (deref recentHeap (some 1) = some recentObj ∧
      List.Forall₂ (fun cte r => Returns recentHeap cte.QueryParts r) recentObj.CTEs
        [("SELECT id FROM orders WHERE created_at > $1", [.int 20240101])]) ∧
    ∃ (before after : String) (args : List Value),
      Returns recentHeap (some 1)
        (before ++ ("SELECT " ++ strings.Join recentObj.Fields ", " ++ " FROM " ++
          recentObj.TableName) ++ after, args) ∧
      (recentObj.CTEs = [] → before = "") :=
  ⟨⟨rfl, List.Forall₂.cons ⟨1, rfl⟩ List.Forall₂.nil⟩,
   C9_select_piece.1 recentHeap (some 1) recentObj
     [("SELECT id FROM orders WHERE created_at > $1", [.int 20240101])]
     rfl (List.Forall₂.cons ⟨1, rfl⟩ List.Forall₂.nil)⟩

/-- C10: on a receiver that addresses the object `o`, each mutator returns the
receiver and replaces `o` by `o` with exactly one sequence extended at its end by
the call's argument(s), everything else as before; hence after any mutator call the
table name is unchanged, each of the five sequences has its old value as an initial
segment, and no other object of the heap is touched. -/
theorem C10_mutators_append_only (h : Heap) (a : Nat) (o : QueryBuilder)
    (ho : h[a]? = some o) :
    (∀ fields, Select h (some a) fields =
      .ok (h.set a { o with Fields := o.Fields ++ fields }, some a)) ∧
    (∀ field operator value, Where h (some a) field operator value =
      .ok (h.set a { o with Conditions := o.Conditions ++ [⟨field, operator, value⟩] },
           some a)) ∧
    (∀ field operator value, OrWhere h (some a) field operator value =
      .ok (h.set a { o with OrConditions := o.OrConditions ++ [⟨field, operator, value⟩] },
           some a)) ∧
    (∀ table foreignKey primaryKey, Join h (some a) table foreignKey primaryKey =
      .ok (h.set a { o with Relations := o.Relations ++ [⟨table, foreignKey, primaryKey⟩] },
           some a)) ∧
    (∀ name queryBuilder, AddCTE h (some a) name queryBuilder =
      .ok (h.set a { o with CTEs := o.CTEs ++ [⟨name, queryBuilder⟩] }, some a)) ∧
    (∀ c : MutatorCall, ∃ (h' : Heap) (o' : QueryBuilder),
      c.run h (some a) = .ok (h', some a) ∧ h'[a]? = some o' ∧
      h'.length = h.length ∧ (∀ b, b ≠ a → h'[b]? = h[b]?) ∧
      o'.TableName = o.TableName ∧ o.Fields <+: o'.Fields ∧
      o.Conditions <+: o'.Conditions ∧ o.OrConditions <+: o'.OrConditions ∧
      o.Relations <+: o'.Relations ∧ o.CTEs <+: o'.CTEs) := by
  have hlt : a < h.length := by
    rcases Nat.lt_or_ge a h.length with hlt | hge
    · exact hlt
    · rw [List.getElem?_eq_none hge] at ho
      cases ho
  have hframe : ∀ (x : QueryBuilder) (b : Nat), b ≠ a → (h.set a x)[b]? = h[b]? := by
    intro x b hb
    exact List.getElem?_set_ne (fun hab => hb hab.symm)
  refine ⟨?_, ?_, ?_, ?_, ?_, ?_⟩
  · intro fields; simp [Select, mutate, ho]
  · intro f op v; simp [Where, mutate, ho]
  · intro f op v; simp [OrWhere, mutate, ho]
  · intro t fk pk; simp [Join, mutate, ho]
  · intro n q; simp [AddCTE, mutate, ho]
  · intro c
    have key : ∀ x : QueryBuilder, c.run h (some a) = .ok (h.set a x, some a) →
        x.TableName = o.TableName → o.Fields <+: x.Fields →
        o.Conditions <+: x.Conditions → o.OrConditions <+: x.OrConditions →
        o.Relations <+: x.Relations → o.CTEs <+: x.CTEs →
        ∃ (h' : Heap) (o' : QueryBuilder),
          c.run h (some a) = .ok (h', some a) ∧ h'[a]? = some o' ∧
          h'.length = h.length ∧ (∀ b, b ≠ a → h'[b]? = h[b]?) ∧
          o'.TableName = o.TableName ∧ o.Fields <+: o'.Fields ∧
          o.Conditions <+: o'.Conditions ∧ o.OrConditions <+: o'.OrConditions ∧
          o.Relations <+: o'.Relations ∧ o.CTEs <+: o'.CTEs := by
      intro x hrun h1 h2 h3 h4 h5 h6
      exact ⟨h.set a x, x, hrun, List.getElem?_set_self hlt, List.length_set _ _ _,
        hframe x, h1, h2, h3, h4, h5, h6⟩
    have hself : ∀ {α : Type} (l : List α), l <+: l := fun l => ⟨[], by simp⟩
    cases c with
    | select fields =>
      exact key { o with Fields := o.Fields ++ fields }
        (by simp [MutatorCall.run, Select, mutate, ho]) rfl ⟨fields, rfl⟩
        (hself _) (hself _) (hself _) (hself _)
    | whereAnd f op v =>
      exact key { o with Conditions := o.Conditions ++ [⟨f, op, v⟩] }
        (by simp [MutatorCall.run, Where, mutate, ho]) rfl (hself _) ⟨_, rfl⟩
        (hself _) (hself _) (hself _)
    | whereOr f op v =>
      exact key { o with OrConditions := o.OrConditions ++ [⟨f, op, v⟩] }
        (by simp [MutatorCall.run, OrWhere, mutate, ho]) rfl (hself _) (hself _) ⟨_, rfl⟩
        (hself _) (hself _)
    | join t fk pk =>
      exact key { o with Relations := o.Relations ++ [⟨t, fk, pk⟩] }
        (by simp [MutatorCall.run, Join, mutate, ho]) rfl (hself _) (hself _) (hself _)
        ⟨_, rfl⟩ (hself _)
    | addCTE n q =>
      exact key { o with CTEs := o.CTEs ++ [⟨n, q⟩] }
        (by simp [MutatorCall.run, AddCTE, mutate, ho]) rfl (hself _) (hself _) (hself _)
        (hself _) ⟨_, rfl⟩

/-- C10 witness: the five mutators on `usersObj`. -/
theorem C10_mutators_append_only_witness :
    usersHeap[0]? = some usersObj ∧
    Select usersHeap (some 0) ["name", "id"] =
      .ok ([{ usersObj with Fields := ["id", "name", "id"] }], some 0) ∧
    AddCTE usersHeap (some 0) "self" (some 0) =
      .ok ([{ usersObj with CTEs := [⟨"self", some 0⟩] }], some 0) :=
  ⟨rfl,
   (C10_mutators_append_only usersHeap 0 usersObj rfl).1 ["name", "id"],
   (C10_mutators_append_only usersHeap 0 usersObj rfl).2.2.2.2.1 "self" (some 0)⟩

/-- C11: a `BuildQuery` call that returns leaves the heap as it found it, so the
table name and the five sequences of the assembler and of every other object are
as before; it returns what the heap-reading `BuildQuery` returns; a second call
right after it returns the same heap, text and arguments; and any later call on
the unchanged heap that returns, whatever its budget, returns that same result. -/
theorem C11_render_changes_nothing (fuel : Nat) (h : Heap) (qb : Ptr) (h' : Heap)
    (res : String × List Value) (hcall : BuildQueryS fuel h qb = .ok (h', res)) :
    h' = h ∧
    BuildQuery h fuel qb = .ok res ∧
    BuildQueryS fuel h' qb = .ok (h', res) ∧
    (∀ (fuel₂ : Nat) (h₂ : Heap) (res₂ : String × List Value),
      BuildQueryS fuel₂ h' qb = .ok (h₂, res₂) → h₂ = h ∧ res₂ = res) := by
  have hinv : ∀ (n : Nat) (k : Heap) (r : String × List Value),
      BuildQueryS n h qb = .ok (k, r) → k = h ∧ BuildQuery h n qb = .ok r := by
    intro n k r hk
    rw [BuildQueryS_eq] at hk
    cases hb : BuildQuery h n qb with
    | error e => simp [hb, Except.map] at hk
    | ok v =>
      simp only [hb, Except.map] at hk
      have hkv := Except.ok.inj hk
      exact ⟨(Prod.mk.inj hkv).1.symm, by rw [(Prod.mk.inj hkv).2]⟩
  obtain ⟨hh, hb⟩ := hinv fuel h' res hcall
  subst hh
  refine ⟨rfl, hb, hcall, ?_⟩
  intro fuel₂ h₂ res₂ h2
  obtain ⟨hh₂, hb₂⟩ := hinv fuel₂ h₂ res₂ h2
  exact ⟨hh₂, Returns_unique h' qb res₂ res ⟨fuel₂, hb₂⟩ ⟨fuel, hb⟩⟩

/-- C11 witness: rendering `recentObj` at address 1 of `recentHeap`. -/
theorem C11_render_changes_nothing_witness :
    BuildQueryS 2 recentHeap (some 1) =
      .ok (recentHeap,
           "WITH recent AS (SELECT id FROM orders WHERE created_at > $1) " ++
             "SELECT * FROM recent JOIN users ON recent.id = users.user_id " ++
             "WHERE total > $1 AND (status = $2)",
           [.int 20240101, .int 100, .str "paid"]) ∧
    recentHeap = recentHeap ∧
    BuildQuery recentHeap 2 (some 1) =
      .ok ("WITH recent AS (SELECT id FROM orders WHERE created_at > $1) " ++
             "SELECT * FROM recent JOIN users ON recent.id = users.user_id " ++
             "WHERE total > $1 AND (status = $2)",
           [.int 20240101, .int 100, .str "paid"]) ∧
    BuildQueryS 2 recentHeap (some 1) =
      .ok (recentHeap,
           "WITH recent AS (SELECT id FROM orders WHERE created_at > $1) " ++
             "SELECT * FROM recent JOIN users ON recent.id = users.user_id " ++
             "WHERE total > $1 AND (status = $2)",
           [.int 20240101, .int 100, .str "paid"]) ∧
    (∀ (fuel₂ : Nat) (h₂ : Heap) (res₂ : String × List Value),
      BuildQueryS fuel₂ recentHeap (some 1) = .ok (h₂, res₂) →
      h₂ = recentHeap ∧
      res₂ = ("WITH recent AS (SELECT id FROM orders WHERE created_at > $1) " ++
             "SELECT * FROM recent JOIN users ON recent.id = users.user_id " ++
             "WHERE total > $1 AND (status = $2)",
           [.int 20240101, .int 100, .str "paid"])) :=
  ⟨rfl, C11_render_changes_nothing 2 recentHeap (some 1) recentHeap _ rfl⟩

/-- C12, as stated, fails: with a `nil` sub-assembler attached, `BuildQuery` panics
with a nil dereference (line 75 of the nested call) and returns no pair, whatever
the recursion budget. -/
theorem C12_counterexample :
    scenarioNilCTE 2 = .error .nilDereference ∧
    ¬ ∃ (fuel : Nat) (res : String × List Value), scenarioNilCTE fuel = .ok res := by
  refine ⟨rfl, ?_⟩
  rintro ⟨fuel, res, hres⟩
  rcases fuel with _ | _ | n
  · cases hres
  · cases hres
  · have hnil : scenarioNilCTE (n + 2) = .error .nilDereference := rfl
    rw [hnil] at hres
    cases hres

/-- C12, amended: for every assembler that is not `nil`, whose CTE references at
every depth are not `nil` and whose CTE nesting is finite, `BuildQuery` returns a
(text, arguments) pair, and under no recursion budget does it panic. -/
theorem C12_total_on_well_nested (h : Heap) (qb : Ptr) (hw : WellNested h qb) :
    ∃ (text : String) (args : List Value),
      Returns h qb (text, args) ∧
      ∀ fuel, BuildQuery h fuel qb ≠ .error .nilDereference := by
  obtain ⟨⟨text, args⟩, n, hn⟩ := Returns_of_WellNested h qb hw
  refine ⟨text, args, ⟨n, hn⟩, ?_⟩
  intro fuel hbad
  have h1 := BuildQuery_stable h fuel (max fuel n) (Nat.le_max_left _ _) qb _ hbad
    (by intro hc; cases hc)
  have h2 := BuildQuery_le h n (max fuel n) (Nat.le_max_right _ _) qb _ hn
  rw [h1] at h2
  cases h2

/-- C12 witness: `recentObj` at address 1 of `recentHeap`. -/
theorem C12_total_on_well_nested_witness :
    WellNested recentHeap (some 1) ∧
    ∃ (text : String) (args : List Value),
      Returns recentHeap (some 1) (text, args) ∧
      ∀ fuel, BuildQuery recentHeap fuel (some 1) ≠ .error .nilDereference :=
  ⟨WellNested_of_ok recentHeap 2 (some 1) _ rfl,
   C12_total_on_well_nested recentHeap (some 1)
     (WellNested_of_ok recentHeap 2 (some 1) _ rfl)⟩

/-- C13: for an assembler with no CTE entries, no AND-conditions and at least one
OR-condition, `BuildQuery` returns the projection and joins followed by
` WHERE (` + the ` OR `-join of the rendered OR-conditions + `)`, nothing being
joined to the group with ` AND `, and the j-th OR-condition (counting from 1)
carries `$j`; the arguments are the OR values in insertion order. -/
theorem C13_or_only_filter (h : Heap) (fuel : Nat) (qb : Ptr) (o : QueryBuilder)
    (hd : deref h qb = some o) (hc : o.CTEs = []) (ha : o.Conditions = [])
    (hor : o.OrConditions ≠ []) :
    BuildQuery h (fuel + 1) qb =
      .ok ("SELECT " ++ strings.Join o.Fields ", " ++ " FROM " ++ o.TableName ++
            String.join (o.Relations.map (fun r =>
              " JOIN " ++ r.Table ++ " ON " ++ o.TableName ++ "." ++ r.PrimaryKey ++ " = " ++
                r.Table ++ "." ++ r.ForeignKey)) ++
            (" WHERE (" ++
              strings.Join (o.OrConditions.mapIdx (fun j c =>
                c.Field ++ " " ++ c.Operator ++ " $" ++ fmtInt (j + 1))) " OR " ++ ")"),
           o.OrConditions.map (fun c => c.Value)) := by
  have hf : (fun j (c : Condition) => c.Field ++ " " ++ c.Operator ++ " $" ++ fmtInt (j + 1)) =
      (fun j (c : Condition) =>
        c.Field ++ " " ++ c.Operator ++ " $" ++ fmtInt (1 + o.Conditions.length + j)) := by
    funext j c
    have : 1 + o.Conditions.length + j = j + 1 := by rw [ha]; simp; omega
    rw [this]
  rw [BuildQuery_noCTE h fuel qb o hd hc,
    BuildQueryBody_ok (BuildQuery h 0) o [] (by rw [hc]; exact List.Forall₂.nil), hf]
  have hw : ∀ x : String, " WHERE (" ++ x = " WHERE " ++ ("(" ++ x) := by
    intro x
    rw [← String.append_assoc]
    rfl
  simp [hc, ha, hor, strings.Join, String.append_assoc]
  rw [hw]

/-- C13 witness: a `users` object with two OR-conditions only. -/
theorem C13_or_only_filter_witness :
    BuildQuery
        [{ TableName := "users", Fields := ["id"], Conditions := [],
           OrConditions := [⟨"status", "=", .str "active"⟩, ⟨"vip", "=", .bool true⟩],
           Relations := [], CTEs := [] }] (0 + 1) (some 0) =
      .ok ("SELECT id FROM users WHERE (status = $1 OR vip = $2)",
           [.str "active", .bool true]) :=
  C13_or_only_filter
    [{ TableName := "users", Fields := ["id"], Conditions := [],
       OrConditions := [⟨"status", "=", .str "active"⟩, ⟨"vip", "=", .bool true⟩],
       Relations := [], CTEs := [] }] 0 (some 0) _ rfl rfl rfl (by decide)

/-- C14: `NewQueryBuilder(t)` allocates, at a fresh address, an object with table
name `t` and five empty sequences, leaving the objects already there as they are;
rendering it right away returns `SELECT  FROM ` + `t` (two spaces) and no
arguments. -/
theorem C14_fresh_builder (h : Heap) (t : String) :
    (NewQueryBuilder h t).2 = some h.length ∧
    deref (NewQueryBuilder h t).1 (NewQueryBuilder h t).2 =
      some { TableName := t, Fields := [], Conditions := [], OrConditions := [],
             Relations := [], CTEs := [] } ∧
    (∀ a, a < h.length → (NewQueryBuilder h t).1[a]? = h[a]?) ∧
    (∀ fuel, BuildQuery (NewQueryBuilder h t).1 (fuel + 1) (NewQueryBuilder h t).2 =
      .ok ("SELECT  FROM " ++ t, [])) := by
  have hd : deref (NewQueryBuilder h t).1 (NewQueryBuilder h t).2 =
      some { TableName := t, Fields := [], Conditions := [], OrConditions := [],
             Relations := [], CTEs := [] } := by
    simp [NewQueryBuilder, deref]
  refine ⟨rfl, hd, ?_, ?_⟩
  · intro a ha
    simp [NewQueryBuilder, List.getElem?_append_left ha]
  · intro fuel
    rw [BuildQuery_noCTE _ fuel _ _ hd rfl,
      BuildQueryBody_ok _ _ [] List.Forall₂.nil]
    simp [strings.Join, String.join, String.append_assoc]

/-- C15: two `Select` calls in a row leave the same state as one `Select` with the
two field lists concatenated (on any receiver); `Select` with no fields leaves the
state unchanged (on a receiver that addresses an object); so rendering after the
two calls and after the single call gives the same result. -/
theorem C15_select_accumulates :
    (∀ (h : Heap) (qb : Ptr) (xs ys : List String),
      (Select h qb xs >>= fun s => Select s.1 s.2 ys) = Select h qb (xs ++ ys)) ∧
    (∀ (h : Heap) (a : Nat) (o : QueryBuilder), h[a]? = some o →
      Select h (some a) [] = .ok (h, some a)) ∧
    (∀ (h : Heap) (qb : Ptr) (xs ys : List String) (fuel : Nat),
      (Select h qb xs >>= fun s => Select s.1 s.2 ys >>= fun s' => BuildQuery s'.1 fuel s'.2) =
      (Select h qb (xs ++ ys) >>= fun s => BuildQuery s.1 fuel s.2)) := by
  have hseq : ∀ (h : Heap) (qb : Ptr) (xs ys : List String),
      (Select h qb xs >>= fun s => Select s.1 s.2 ys) = Select h qb (xs ++ ys) := by
    intro h qb xs ys
    cases qb with
    | none => rfl
    | some a =>
      cases ho : h[a]? with
      | none => simp [Select, mutate, ho, bind, Except.bind]
      | some o =>
        have hlt := lt_length_of_getElem? h a o ho
        simp [Select, mutate, ho, bind, Except.bind, List.getElem?_set_self hlt,
          List.set_set, List.append_assoc]
  refine ⟨hseq, ?_, ?_⟩
  · intro h a o ho
    simp [Select, mutate, ho, set_same h a o ho]
  · intro h qb xs ys fuel
    rw [← hseq h qb xs ys]
    cases Select h qb xs with
    | error e => rfl
    | ok s => rfl

/-- C15 witness: `Select()` on `usersObj`, and `Select("a")`, `Select("b","a")`. -/
theorem C15_select_accumulates_witness :
    usersHeap[0]? = some usersObj ∧
    Select usersHeap (some 0) [] = .ok (usersHeap, some 0) ∧
    (Select usersHeap (some 0) ["a"] >>= fun s => Select s.1 s.2 ["b", "a"]) =
      Select usersHeap (some 0) (["a"] ++ ["b", "a"]) :=
  ⟨rfl, C15_select_accumulates.2.1 usersHeap 0 usersObj rfl,
   C15_select_accumulates.1 usersHeap (some 0) ["a"] ["b", "a"]⟩

/-- C16, as stated, fails: `qb := NewQueryBuilder("t"); qb.AddCTE("self", qb)` builds
an assembler whose CTE entry leads back to itself, and on it the recursion of
`BuildQuery` exhausts every budget. -/
theorem C16_counterexample :
    runProgram [] [.newQueryBuilder "t", .mutator (some 0) (.addCTE "self" (some 0))] =
      .ok selfHeap ∧
    (∃ o cte, selfHeap[0]? = some o ∧ cte ∈ o.CTEs ∧ Reaches selfHeap cte.QueryParts 0) ∧
    ∀ fuel, BuildQuery selfHeap fuel (some 0) = .error .outOfFuel := by
  refine ⟨rfl, ⟨_, ⟨"self", some 0⟩, rfl, List.mem_singleton.mpr rfl, Reaches.here 0⟩, ?_⟩
  intro fuel
  induction fuel with
  | zero => rfl
  | succ n ih =>
    have hd : deref selfHeap (some 0) =
        some { TableName := "t", Fields := [], Conditions := [], OrConditions := [],
               Relations := [], CTEs := [⟨"self", some 0⟩] } := rfl
    rw [BuildQuery]
    simp only [hd]
    unfold BuildQueryBody
    simp [cteLoop, ih]

/-- C16, amended: a sequence of public-interface calls in which no `AddCTE` call
attaches to its receiver an assembler that leads, through zero or more CTE entries,
to that receiver (the receiver itself included) constructs no assembler whose CTE
entries lead back to itself; under every pointer the CTE nesting is then finite and
the recursion of `BuildQuery` ends within some budget. -/
theorem C16_no_cycle_without_ancestor_attach (cs : List InterfaceCall) (h : Heap)
    (hrun : runProgram [] cs = .ok h) (hsafe : AttachNoAncestor [] cs) :
    (∀ a o cte, h[a]? = some o → cte ∈ o.CTEs → ¬ Reaches h cte.QueryParts a) ∧
    (∀ qb, FinitelyNested h qb ∧ ∃ fuel, BuildQuery h fuel qb ≠ .error .outOfFuel) := by
  have hinv : ∀ qb, FinitelyNested h qb :=
    FinitelyNested_program cs [] h
      (fun qb => FinitelyNested.leaf qb (by cases qb <;> simp [deref])) hsafe hrun
  refine ⟨?_, fun qb => ⟨hinv qb, terminates_of_FinitelyNested h qb (hinv qb)⟩⟩
  intro a o cte ho hcte hback
  exact no_cycle_of_FinitelyNested h (some a) (hinv (some a)) a (Reaches.here a)
    ⟨o, cte, ho, hcte, hback⟩

/-- C16 witness: the calls of the CTE scenario; `orders` does not lead to `recent`
when it is attached to it. -/
theorem C16_no_cycle_without_ancestor_attach_witness :
    (runProgram [] recentProgram = .ok recentProgramHeap ∧
      AttachNoAncestor [] recentProgram) ∧
    (∀ a o cte, recentProgramHeap[a]? = some o → cte ∈ o.CTEs →
      ¬ Reaches recentProgramHeap cte.QueryParts a) ∧
    (∀ qb, FinitelyNested recentProgramHeap qb ∧
      ∃ fuel, BuildQuery recentProgramHeap fuel qb ≠ .error .outOfFuel) := by
  have hsafe : AttachNoAncestor [] recentProgram := by
    refine ⟨trivial, trivial, trivial, trivial, trivial, ?_, trivial⟩
    intro hr
    cases hr with
    | step b o cte a hb hcte _ =>
      cases Option.some.inj hb
      cases hcte
  exact ⟨⟨rfl, hsafe⟩,
    C16_no_cycle_without_ancestor_attach recentProgram recentProgramHeap rfl hsafe⟩

/-- C17: for every assembler that is not `nil`, with no `nil` CTE reference under it
and finite CTE nesting, `BuildQuery` returns, and the length of the returned
argument list is the total number of AND- and OR-conditions held by the assembler
and by every assembler nested under it at any depth, counted once per CTE entry
that leads to it (the count no longer changes once the depth bound covers the
nesting). -/
theorem C17_argument_count_is_total (h : Heap) (qb : Ptr) (hw : WellNested h qb) :
    ∃ (text : String) (args : List Value) (depth : Nat),
      Returns h qb (text, args) ∧
      ∀ n, depth ≤ n → args.length = totalConditions h n qb := by
  obtain ⟨⟨text, args⟩, fuel, hfuel⟩ := Returns_of_WellNested h qb hw
  refine ⟨text, args, fuel, ⟨fuel, hfuel⟩, ?_⟩
  intro n hn
  exact length_eq_totalConditions h n qb text args (BuildQuery_le h fuel n hn qb _ hfuel)

set_option maxRecDepth 8000 in
/-- C17 witness: address 2 of `nestedHeap`; address 1 is attached twice, so its
conditions and those below it count twice: `1 + 2 * (1 + 1) = 5`. -/
theorem C17_argument_count_is_total_witness :
    (WellNested nestedHeap (some 2) ∧
      BuildQuery nestedHeap 3 (some 2) =
        .ok ("WITH a AS (WITH o AS (SELECT id FROM orders WHERE created_at > $1) " ++
              "SELECT id FROM recent WHERE (status = $1)), " ++
              "b AS (WITH o AS (SELECT id FROM orders WHERE created_at > $1) " ++
              "SELECT id FROM recent WHERE (status = $1)) " ++
              "SELECT * FROM a WHERE x = $1",
             [.int 20240101, .str "paid", .int 20240101, .str "paid", .int 1]) ∧
      totalConditions nestedHeap 3 (some 2) = 5 ∧
      totalConditions nestedHeap 7 (some 2) = 5) ∧
    ∃ (text : String) (args : List Value) (depth : Nat),
      Returns nestedHeap (some 2) (text, args) ∧
      ∀ n, depth ≤ n → args.length = totalConditions nestedHeap n (some 2) :=
  ⟨⟨WellNested_of_ok nestedHeap 3 (some 2) _ rfl, rfl, rfl, rfl⟩,
   C17_argument_count_is_total nestedHeap (some 2)
     (WellNested_of_ok nestedHeap 3 (some 2) _ rfl)⟩

/-- C18: two mutator calls that append to different sequences give the same
state in either order (on any receiver); more generally a chain of mutator calls on
a receiver that addresses `o` replaces `o` by `o` with each sequence extended by
what the calls for that sequence append, in call order, so two chains that agree
sequence by sequence leave the same heap, on which `BuildQuery` gives the same
result. -/
theorem C18_mutators_commute :
    (∀ (h : Heap) (qb : Ptr) (c₁ c₂ : MutatorCall), c₁.target ≠ c₂.target →
      runCalls h qb [c₁, c₂] = runCalls h qb [c₂, c₁]) ∧
    (∀ (h : Heap) (a : Nat) (o : QueryBuilder) (cs : List MutatorCall), h[a]? = some o →
      runCalls h (some a) cs =
        .ok (h.set a
              { TableName := o.TableName,
                Fields := o.Fields ++ (cs.map MutatorCall.toFields).flatten,
                Conditions := o.Conditions ++ (cs.map MutatorCall.toConditions).flatten,
                OrConditions := o.OrConditions ++ (cs.map MutatorCall.toOrConditions).flatten,
                Relations := o.Relations ++ (cs.map MutatorCall.toRelations).flatten,
                CTEs := o.CTEs ++ (cs.map MutatorCall.toCTEs).flatten },
             some a)) ∧
    (∀ (h : Heap) (a : Nat) (o : QueryBuilder) (cs cs' : List MutatorCall), h[a]? = some o →
      (cs.map MutatorCall.toFields).flatten = (cs'.map MutatorCall.toFields).flatten →
      (cs.map MutatorCall.toConditions).flatten = (cs'.map MutatorCall.toConditions).flatten →
      (cs.map MutatorCall.toOrConditions).flatten =
        (cs'.map MutatorCall.toOrConditions).flatten →
      (cs.map MutatorCall.toRelations).flatten = (cs'.map MutatorCall.toRelations).flatten →
      (cs.map MutatorCall.toCTEs).flatten = (cs'.map MutatorCall.toCTEs).flatten →
      runCalls h (some a) cs = runCalls h (some a) cs' ∧
      ∀ fuel, (runCalls h (some a) cs >>= fun s => BuildQuery s.1 fuel s.2) =
        (runCalls h (some a) cs' >>= fun s => BuildQuery s.1 fuel s.2)) := by
  have hchain : ∀ (cs : List MutatorCall) (h : Heap) (a : Nat) (o : QueryBuilder),
      h[a]? = some o →
      runCalls h (some a) cs =
        .ok (h.set a
              { TableName := o.TableName,
                Fields := o.Fields ++ (cs.map MutatorCall.toFields).flatten,
                Conditions := o.Conditions ++ (cs.map MutatorCall.toConditions).flatten,
                OrConditions := o.OrConditions ++ (cs.map MutatorCall.toOrConditions).flatten,
                Relations := o.Relations ++ (cs.map MutatorCall.toRelations).flatten,
                CTEs := o.CTEs ++ (cs.map MutatorCall.toCTEs).flatten },
             some a) := by
    intro cs
    induction cs with
    | nil =>
      intro h a o ho
      simp [runCalls, set_same h a o ho]
    | cons c rest ih =>
      intro h a o ho
      have hlt := lt_length_of_getElem? h a o ho
      cases c <;>
        simp [runCalls, MutatorCall.run, Select, Where, OrWhere, Join, AddCTE, mutate, ho,
          ih _ a _ (List.getElem?_set_self hlt), List.set_set, MutatorCall.toFields,
          MutatorCall.toConditions, MutatorCall.toOrConditions, MutatorCall.toRelations,
          MutatorCall.toCTEs]
  refine ⟨?_, fun h a o cs ho => hchain cs h a o ho, ?_⟩
  · intro h qb c₁ c₂ hne
    cases qb with
    | none => cases c₁ <;> cases c₂ <;> rfl
    | some a =>
      cases ho : h[a]? with
      | none =>
        cases c₁ <;> cases c₂ <;>
          simp [runCalls, MutatorCall.run, Select, Where, OrWhere, Join, AddCTE, mutate, ho]
      | some o =>
        rw [hchain _ h a o ho, hchain _ h a o ho]
        cases c₁ <;> cases c₂ <;>
          first
          | exact absurd rfl hne
          | simp [MutatorCall.toFields, MutatorCall.toConditions, MutatorCall.toOrConditions,
              MutatorCall.toRelations, MutatorCall.toCTEs]
  · intro h a o cs cs' ho h1 h2 h3 h4 h5
    have heq : runCalls h (some a) cs = runCalls h (some a) cs' := by
      rw [hchain cs h a o ho, hchain cs' h a o ho, h1, h2, h3, h4, h5]
    exact ⟨heq, fun fuel => by rw [heq]⟩

/-- C18 witness: `AddCTE` then `Where` on `usersObj`, and the other order. -/
theorem C18_mutators_commute_witness :
    (MutatorCall.addCTE "c" none).target ≠ (MutatorCall.whereAnd "x" "=" (.int 1)).target ∧
    runCalls usersHeap (some 0) [.addCTE "c" none, .whereAnd "x" "=" (.int 1)] =
      runCalls usersHeap (some 0) [.whereAnd "x" "=" (.int 1), .addCTE "c" none] :=
  ⟨by decide,
   C18_mutators_commute.1 usersHeap (some 0) (.addCTE "c" none) (.whereAnd "x" "=" (.int 1))
     (by decide)⟩

end querybuilder
